import Mathlib

/-!
A shallow embedding of the task lifecycle and dependency-consistency engine
of the agent task management system: the task record, the in-memory task
store with its status state machine and cascade logic, the deduplicator
merge pipeline, the validator, and the graph traversals.

Modelling conventions:
* Python dicts become association lists kept in insertion order; updating an
  existing key rewrites the entry in place, a new key is appended.
* Timestamps are abstract clock values (`Nat`); `datetime.now()` becomes an
  explicit `now : Nat` argument threaded through each operation.
* File persistence is a map from (status directory, task id) to the record
  written there; a `persistOk : Bool` argument models whether the underlying
  file write succeeds (`save_task` catching an exception and returning False).
* CPython aliasing: the store cache holds the very `Task` object that the
  operations mutate in place, so every in-place field assignment is committed
  to the cache at the point where it happens in the source.
-/

namespace TaskSys

inductive TaskStatus where
  | pending
  | blocked
  | todo
  | in_progress
  | complete
  | cancelled
deriving DecidableEq, Repr

/-- The `.value` of the Python `TaskStatus` enum member. -/
def TaskStatus.value : TaskStatus → String
  | .pending => "pending"
  | .blocked => "blocked"
  | .todo => "todo"
  | .in_progress => "in_progress"
  | .complete => "complete"
  | .cancelled => "cancelled"

inductive TaskPriority where
  | low
  | medium
  | high
  | critical
deriving DecidableEq, Repr

/-- The task record (`@dataclass Task`).  Optional scalar fields keep their
`Option` shape; numeric hours are abstracted to `Nat` magnitudes (Python
truthiness of a float: `None` and `0.0` are falsy). -/
structure Task where
  id : String
  title : String
  description : String
  agent : String
  status : TaskStatus
  priority : TaskPriority := .medium
  created_at : Option Nat := none
  updated_at : Option Nat := none
  due_date : Option Nat := none
  dependencies : List String := []
  notes : Option String := none
  estimated_hours : Option Nat := none
  actual_hours : Option Nat := none
  assignee : Option String := none
  tags : List String := []
deriving DecidableEq, Repr

/-- Python truthiness of a string: empty is falsy. -/
def strTruthy (s : String) : Bool := decide (s ≠ "")

/-- Python truthiness of an optional string (`None` and `""` are falsy). -/
def optStrTruthy : Option String → Bool
  | none => false
  | some s => strTruthy s

/-- Python truthiness of an optional number (`None` and `0.0` are falsy). -/
def optNatTruthy : Option Nat → Bool
  | none => false
  | some n => decide (n ≠ 0)

/-- The manager state: `tasks_cache` (insertion-ordered dict of records),
`dependency_graph` (id to dependency list), and the on-disk store keyed by
(status directory, file stem). -/
structure Manager where
  tasks : List Task
  graph : List (String × List String)
  disk : List ((TaskStatus × String) × Task)
deriving DecidableEq, Repr

/-- `tasks_cache.get(task_id)`. -/
def getTask (m : Manager) (task_id : String) : Option Task :=
  m.tasks.find? (fun t => decide (t.id = task_id))

/-- In-place rewrite of the cache entry whose key is `t.id` (dict assignment
to an existing key; every entry carrying that id is rewritten, which for a
dict-backed cache is the unique one). -/
def replaceById (ts : List Task) (t : Task) : List Task :=
  ts.map (fun u => if u.id = t.id then t else u)

/-- Dict assignment `cache[t.id] = t`: rewrite in place when the key exists,
append otherwise. -/
def putCache (ts : List Task) (t : Task) : List Task :=
  if ts.any (fun u => decide (u.id = t.id)) then replaceById ts t else ts ++ [t]

/-- Dict assignment `dependency_graph[tid] = deps`. -/
def putGraph (g : List (String × List String)) (tid : String) (deps : List String) :
    List (String × List String) :=
  if g.any (fun e => decide (e.1 = tid)) then
    g.map (fun e => if e.1 = tid then (tid, deps) else e)
  else g ++ [(tid, deps)]

/-- Writing a task file: overwrite the entry at that path, or create it. -/
def diskPut (d : List ((TaskStatus × String) × Task)) (key : TaskStatus × String)
    (t : Task) : List ((TaskStatus × String) × Task) :=
  if d.any (fun e => decide (e.1 = key)) then
    d.map (fun e => if e.1 = key then (key, t) else e)
  else d ++ [(key, t)]

/-- `unlink`: remove the file at a path. -/
def diskErase (d : List ((TaskStatus × String) × Task)) (key : TaskStatus × String) :
    List ((TaskStatus × String) × Task) :=
  d.filter (fun e => decide (e.1 ≠ key))

/-- `_is_valid_status_transition`: the allowed transition table. -/
def is_valid_status_transition (current new : TaskStatus) : Bool :=
  let valid : List TaskStatus :=
    match current with
    | .pending => [.todo, .blocked, .cancelled]
    | .blocked => [.todo, .pending, .cancelled]
    | .todo => [.in_progress, .blocked, .cancelled, .complete]
    | .in_progress => [.complete, .todo, .blocked]
    | .complete => [.in_progress]
    | .cancelled => [.pending, .todo]
  valid.contains new

/-- `_dependencies_satisfied`: a missing task or an empty dependency list is
trivially satisfied; otherwise every dependency must resolve to an existing
task whose status is complete. -/
def dependencies_satisfied (m : Manager) (task_id : String) : Bool :=
  match getTask m task_id with
  | none => true
  | some task =>
    if task.dependencies = [] then true
    else task.dependencies.all (fun dep_id =>
      match getTask m dep_id with
      | none => false
      | some dep_task => decide (dep_task.status = .complete))

/-- The timestamp mutations `save_task` performs on the record before
writing: fill a missing `created_at` with now and refresh `updated_at`. -/
def savedForm (t : Task) (now : Nat) : Task :=
  { t with created_at := some (t.created_at.getD now), updated_at := some now }

/-- `save_task`.  The record's timestamp mutations are visible in the cache
immediately when the record is the cache's own object (aliasing); on write
failure the function returns `false` having already applied them.  On success
it removes the old file when the cached status differs (dead under aliasing),
writes the new file, and rewrites cache and graph entries. -/
def save_task (m : Manager) (t : Task) (now : Nat) (persistOk : Bool) :
    Bool × Manager :=
  let t' := savedForm t now
  let cache1 := if m.tasks.any (fun u => decide (u.id = t'.id))
                then replaceById m.tasks t' else m.tasks
  if persistOk then
    let old_task := cache1.find? (fun u => decide (u.id = t'.id))
    let disk1 := match old_task with
      | some old => if old.status ≠ t'.status
                    then diskErase m.disk (old.status, t'.id) else m.disk
      | none => m.disk
    let disk2 := diskPut disk1 (t'.status, t'.id) t'
    (true, { tasks := putCache cache1 t',
             graph := putGraph m.graph t'.id t'.dependencies,
             disk := disk2 })
  else
    (false, { m with tasks := cache1 })

/-- The notes rewrite in `update_task_status` when a non-empty note is
supplied. -/
def statusChangeNote (oldNotes : Option String) (old new : TaskStatus)
    (n : String) (now : Nat) : String :=
  if optStrTruthy oldNotes then
    (oldNotes.getD "") ++ "\n\n[" ++ toString now ++ "] Status changed from "
      ++ old.value ++ " to " ++ new.value ++ ": " ++ n
  else
    "[" ++ toString now ++ "] " ++ n

/-- The in-place record mutation of `update_task_status`: set the new status
and, when a non-empty note is supplied, rewrite the notes field. -/
def applyStatusChange (task : Task) (new_status : TaskStatus)
    (notes : Option String) (now : Nat) : Task :=
  let task1 : Task := { task with status := new_status }
  match notes with
  | some n =>
    if strTruthy n then
      { task1 with notes := some (statusChangeNote task.notes task.status new_status n now) }
    else task1
  | none => task1

/-- `update_task_status` without its trailing cascade call: look the task up,
validate the transition, gate a move to todo on satisfied dependencies,
mutate status and notes in place (visible in the cache), then persist. -/
def update_task_status_core (m : Manager) (task_id : String)
    (new_status : TaskStatus) (notes : Option String) (now : Nat)
    (persistOk : Bool) : Bool × Manager :=
  match getTask m task_id with
  | none => (false, m)
  | some task =>
    if ¬ is_valid_status_transition task.status new_status then (false, m)
    else if new_status = .todo ∧ ¬ dependencies_satisfied m task_id then (false, m)
    else
      let task2 := applyStatusChange task new_status notes now
      let m1 : Manager := { m with tasks := replaceById m.tasks task2 }
      save_task m1 task2 now persistOk

/-- The type of the status-update operation, abstracted so the cascade walk
can re-enter it. -/
def Updater : Type :=
  Manager → String → TaskStatus → Option String → Nat → Bool → Bool × Manager

/-- The loop body of `_update_dependent_tasks`: for every graph entry listing
the completed task, re-check a blocked dependent and auto-transition it to
todo when its dependencies are all satisfied.  (The graph keys are stable
during the walk and dependency lists are never rewritten by these updates, so
iterating a snapshot of the entries matches the live-dict iteration.) -/
def cascade_entries (upd : Updater) :
    List (String × List String) → Manager → String → Nat → Bool → Manager
  | [], m, _, _, _ => m
  | (task_id, dependencies) :: rest, m, completed_task_id, now, persistOk =>
    let m' :=
      if completed_task_id ∈ dependencies then
        match getTask m task_id with
        | some dependent_task =>
          if dependent_task.status = .blocked ∧ dependencies_satisfied m task_id then
            (upd m task_id .todo
              (some ("Automatically moved to TODO - dependency "
                ++ completed_task_id ++ " completed")) now persistOk).2
          else m
        | none => m
      else m
    cascade_entries upd rest m' completed_task_id now persistOk

/-- `_update_dependent_tasks`: nothing happens unless the task is complete;
otherwise walk the dependency graph entries. -/
def update_dependent_tasks_with (upd : Updater) (m : Manager)
    (completed_task_id : String) (now : Nat) (persistOk : Bool) : Manager :=
  match getTask m completed_task_id with
  | none => m
  | some completed_task =>
    if completed_task.status ≠ .complete then m
    else cascade_entries upd m.graph m completed_task_id now persistOk

/-- `update_task_status`, fuel-indexed to bound the cascade re-entry.  A
cascaded transition always targets todo, whose own cascade pass is a no-op,
so any fuel of at least 2 computes the source behaviour. -/
def update_task_status_fuel : Nat → Updater
  | 0 => fun m _ _ _ _ _ => (false, m)
  | fuel + 1 => fun m task_id new_status notes now persistOk =>
    let r := update_task_status_core m task_id new_status notes now persistOk
    if r.1 then
      (true, update_dependent_tasks_with (update_task_status_fuel fuel) r.2
        task_id now persistOk)
    else
      (false, r.2)

/-- `update_task_status` with enough fuel for the cascade (depth 2 suffices:
complete triggers dependents, each moved to todo, whose cascade is a no-op). -/
def update_task_status (m : Manager) (task_id : String) (new_status : TaskStatus)
    (notes : Option String) (now : Nat) (persistOk : Bool) : Bool × Manager :=
  update_task_status_fuel (m.tasks.length + 2) m task_id new_status notes now persistOk

/-- `auto_transition_ready_tasks`: snapshot the blocked tasks, move each whose
dependencies are satisfied to todo, and collect the ids actually transitioned. -/
def auto_transition_ready_tasks (m : Manager) (now : Nat) (persistOk : Bool) :
    List String × Manager :=
  let blocked := m.tasks.filter (fun t => decide (t.status = .blocked))
  blocked.foldl
    (fun acc task =>
      if dependencies_satisfied acc.2 task.id then
        let r := update_task_status acc.2 task.id .todo
          (some "Auto-transitioned: dependencies satisfied") now persistOk
        (if r.1 then acc.1 ++ [task.id] else acc.1, r.2)
      else acc)
    ([], m)

/-! ## Deduplicator -/

/-- The record fields a merge strategy can source from either side
(the fixed list iterated by `_create_auto_merge_strategy`). -/
inductive MField where
  | title
  | description
  | agent
  | priority
  | estimated_hours
  | due_date
deriving DecidableEq, Repr

/-- `MergeStrategy`. -/
structure MergeStrategy where
  keep_task_id : String
  remove_task_id : String
  field_sources : List (MField × String)
  merge_notes : Bool := true
  merge_dependencies : Bool := true
  merge_tags : Bool := true
deriving DecidableEq, Repr

/-- Python truthiness of each mergeable field (an enum member such as a
priority, and a datetime, are always truthy; a float is falsy at zero). -/
def fieldTruthy (t : Task) : MField → Bool
  | .title => strTruthy t.title
  | .description => strTruthy t.description
  | .agent => strTruthy t.agent
  | .priority => true
  | .estimated_hours => optNatTruthy t.estimated_hours
  | .due_date => t.due_date.isSome

/-- `setattr(dst, field, getattr(src, field))`. -/
def setMField (dst : Task) (f : MField) (src : Task) : Task :=
  match f with
  | .title => { dst with title := src.title }
  | .description => { dst with description := src.description }
  | .agent => { dst with agent := src.agent }
  | .priority => { dst with priority := src.priority }
  | .estimated_hours => { dst with estimated_hours := src.estimated_hours }
  | .due_date => { dst with due_date := src.due_date }

/-- The field order of `_create_auto_merge_strategy`. -/
def mergeFields : List MField :=
  [.title, .description, .agent, .priority, .estimated_hours, .due_date]

/-- `_task_completeness_score` as the integer point count out of 10 (the
source returns `score / 10.0`; dividing both sides of a comparison by the
same positive constant keeps the comparison, so the point counts compare
exactly as the quotients do). -/
def task_completeness_score (t : Task) : Nat :=
  (if strTruthy t.title then 1 else 0)
  + (if strTruthy t.description then 1 else 0)
  + (if strTruthy t.agent then 1 else 0)
  + (if optNatTruthy t.estimated_hours then 1 else 0)
  + (if t.due_date.isSome then 1 else 0)
  + (if t.tags ≠ [] then 1 else 0)
  + (if t.dependencies ≠ [] then 1 else 0)
  + (if optStrTruthy t.notes then 1 else 0)
  + (if optStrTruthy t.assignee then 1 else 0)
  + (if t.priority ≠ .medium then 1 else 0)

/-- `_create_auto_merge_strategy` (the match argument only feeds its two
tasks into the strategy).  Keep `task1` unless `task2` was updated strictly
more recently (both timestamps present), or failing that, unless `task2` has
the strictly greater completeness score. -/
def create_auto_merge_strategy (task1 task2 : Task) : MergeStrategy :=
  let newer2 : Bool :=
    match task2.updated_at, task1.updated_at with
    | some u2, some u1 => decide (u2 > u1)
    | _, _ => false
  let kr : Task × Task :=
    if newer2 then (task2, task1)
    else if task_completeness_score task2 > task_completeness_score task1 then
      (task2, task1)
    else (task1, task2)
  let field_sources := mergeFields.map (fun f =>
    (f, if fieldTruthy task2 f ∧ ¬ fieldTruthy task1 f then task2.id
        else if fieldTruthy task1 f ∧ ¬ fieldTruthy task2 f then task1.id
        else kr.1.id))
  { keep_task_id := kr.1.id
    remove_task_id := kr.2.id
    field_sources := field_sources
    merge_notes := true
    merge_dependencies := true
    merge_tags := true }

/-- First-occurrence deduplication: the order `dict.fromkeys` keeps; also
used for `list(set(...))`, which yields each element exactly once in an
order the source does not rely on. -/
def dedupFirstAux (seen : List String) : List String → List String
  | [] => []
  | x :: xs =>
    if x ∈ seen then dedupFirstAux seen xs
    else x :: dedupFirstAux (x :: seen) xs

def dedupFirst (l : List String) : List String := dedupFirstAux [] l

/-- One iteration of `_update_references`: rewrite a record whose dependency
list mentions the merged-away id to point at the kept id, deduplicate, and
save (the save result is ignored by the source). -/
def update_references_step (mm : Manager) (tid old_task_id new_task_id : String)
    (now : Nat) (persistOk : Bool) : Manager :=
  match getTask mm tid with
  | none => mm
  | some task =>
    if old_task_id ∈ task.dependencies then
      let deps' := dedupFirst (task.dependencies.map
        (fun dep => if dep = old_task_id then new_task_id else dep))
      let task' : Task := { task with dependencies := deps' }
      let mm1 : Manager := { mm with tasks := replaceById mm.tasks task' }
      (save_task mm1 task' now persistOk).2
    else mm

/-- `_update_references`: walk every cached record (the key set is stable
while each rewritten record is saved back under its own key). -/
def update_references (m : Manager) (old_task_id new_task_id : String)
    (now : Nat) (persistOk : Bool) : Manager :=
  (m.tasks.map (fun t => t.id)).foldl
    (fun mm tid => update_references_step mm tid old_task_id new_task_id now persistOk)
    m

/-- The field-source application loop of `_execute_merge`: sequential
`setattr` on the kept record, reading each value from the named source. -/
def applyFieldSources (field_sources : List (MField × String)) (remove_task : Task)
    (keep0 : Task) : Task :=
  field_sources.foldl
    (fun acc fs => setMField acc fs.1 (if fs.2 = acc.id then acc else remove_task))
    keep0

/-- The notes-merge step of `_execute_merge`. -/
def mergeNotesStep (strategy : MergeStrategy) (remove_task : Task) (now : Nat)
    (keep1 : Task) : Task :=
  if strategy.merge_notes ∧ optStrTruthy remove_task.notes then
    let merge_note := "[" ++ toString now ++ "] Merged from task "
      ++ remove_task.id ++ ": " ++ (remove_task.notes.getD "")
    if optStrTruthy keep1.notes then
      { keep1 with notes := some ((keep1.notes.getD "") ++ "\n\n" ++ merge_note) }
    else { keep1 with notes := some merge_note }
  else keep1

/-- The dependency-merge step of `_execute_merge`: union, deduplicated, with
self-references to either merged id stripped. -/
def mergeDepsStep (strategy : MergeStrategy) (remove_task : Task)
    (keep2 : Task) : Task :=
  let merged_deps :=
    (dedupFirst (keep2.dependencies ++ remove_task.dependencies)).filter
      (fun d => decide (d ≠ keep2.id ∧ d ≠ remove_task.id))
  if strategy.merge_dependencies ∧ remove_task.dependencies ≠ [] then
    { keep2 with dependencies := merged_deps }
  else keep2

/-- The tag-merge step of `_execute_merge`. -/
def mergeTagsStep (strategy : MergeStrategy) (remove_task : Task)
    (keep3 : Task) : Task :=
  if strategy.merge_tags ∧ remove_task.tags ≠ [] then
    { keep3 with tags := dedupFirst (keep3.tags ++ remove_task.tags) }
  else keep3

/-- The in-place mutation `_execute_merge` applies to the kept record before
saving: field sources, notes, dependencies, tags, then the updated_at stamp. -/
def mergedKeepRecord (strategy : MergeStrategy) (keep0 remove_task : Task)
    (now : Nat) : Task :=
  let keep1 := applyFieldSources strategy.field_sources remove_task keep0
  let keep2 := mergeNotesStep strategy remove_task now keep1
  let keep3 := mergeDepsStep strategy remove_task keep2
  let keep4 := mergeTagsStep strategy remove_task keep3
  { keep4 with updated_at := some now }

/-- `_execute_merge`: apply the merge mutation to the kept (cached) record,
persist it; on success delete the removed record file and its cache and graph
entries and rewrite references from the removed id to the kept id. -/
def execute_merge (m : Manager) (strategy : MergeStrategy) (now : Nat)
    (persistOk : Bool) : Bool × Manager :=
  match getTask m strategy.keep_task_id, getTask m strategy.remove_task_id with
  | some keep0, some remove_task =>
    let keep5 := mergedKeepRecord strategy keep0 remove_task now
    let m1 : Manager := { m with tasks := replaceById m.tasks keep5 }
    let r := save_task m1 keep5 now persistOk
    if r.1 then
      let m2 := r.2
      let m3 : Manager :=
        { m2 with disk := diskErase m2.disk (remove_task.status, remove_task.id) }
      let m4 : Manager :=
        { m3 with tasks := m3.tasks.filter (fun t => decide (t.id ≠ remove_task.id)) }
      let m5 : Manager :=
        { m4 with graph := m4.graph.filter (fun e => decide (e.1 ≠ remove_task.id)) }
      (true, update_references m5 remove_task.id keep5.id now persistOk)
    else (false, r.2)
  | _, _ => (false, m)

/-! ## Validator -/

/-- `AGENT_CAPABILITIES` from the configuration. -/
def AGENT_CAPABILITIES : List (String × List String) :=
  [("CODEFORGE", ["implement", "develop", "code", "build", "infrastructure"]),
   ("DESIGNER", ["design", "ui", "ux", "interface", "visual"]),
   ("DOCUMENTER", ["documentation", "technical-writing", "api-docs"]),
   ("ANALYST", ["text-processing", "task-generation", "document-analysis",
                "workflow-automation", "ai-collaboration"]),
   ("DEVELOPER", ["implement", "develop", "code", "build", "programming", "software"]),
   ("DEVOPS", ["deploy", "ops", "ci/cd", "pipeline", "infrastructure"]),
   ("TESTER", ["testing", "quality-assurance", "reliability", "pytest", "coverage"]),
   ("ARCHITECT", ["branding", "naming", "research", "cli-design", "market-analysis"]),
   ("AUTOMATION", ["epics", "phases", "hierarchy", "display", "ui"]),
   ("DEMO_AGENT", ["demos", "examples", "use-cases", "portfolio-enhancement",
                   "documentation"])]

/-- `VALID_TAGS` from the configuration. -/
def VALID_TAGS : List String :=
  ["cli", "ux", "blockers", "visualization", "feature-enhancement",
   "logging", "infrastructure", "production-ready", "monitoring",
   "testing", "quality-assurance", "portfolio-enhancement", "ci-cd",
   "automation", "changelog", "release-management", "task-analysis",
   "code-generation", "maintenance", "validation", "cleanup", "workflow",
   "text-processing", "task-generation", "document-analysis",
   "workflow-automation", "ai-collaboration", "reporting", "analytics",
   "dashboard", "epics", "phases", "hierarchy", "display", "ui",
   "configuration", "data-quality", "system-flexibility", "dependencies",
   "bug-fix", "improvement", "api", "integration", "security",
   "code-review", "github-actions", "agent-integration", "branding",
   "naming", "research", "market-analysis", "data-model", "schema-extension",
   "task-enhancement", "performance", "optimization", "scalability",
   "caching", "packaging", "distribution", "pypi", "version-management",
   "ide-integration", "user-experience", "interface-design", "refactoring",
   "project-history", "time-management", "demos", "examples", "use-cases",
   "cli-design", "pytest", "coverage", "workflow-tracking", "test", "example",
   "agent-management", "github", "sync", "technical-writing", "api-docs",
   "integrations", "api-bindings", "frameworks", "devops", "quality-of-life",
   "data-cleanup", "fixes", "data-format", "ideas", "expansion", "ai",
   "brainstorming", "data-hygiene", "grouping", "nesting", "status",
   "emoji", "visual", "accessibility", "flexibility", "data-management",
   "reliability", "backlog", "routing", "prioritization", "git",
   "polish", "deployment", "priority-management", "workflow-optimization",
   "backlog-management", "analysis", "debugging", "script", "tldr",
   "recommendations", "intelligence", "architecture", "categorization",
   "planning", "task-management", "system-implementation", "data-integrity",
   "timestamps", "auto-fix", "migration", "enterprise", "portfolio",
   "enhancement", "code-analysis", "claude", "linting", "formatting",
   "type-checking", "standardization", "yaml", "documentation", "code-quality"]

/-- Association-list lookup (Python dict membership / indexing). -/
def alookup (l : List (String × α)) (k : String) : Option α :=
  (l.find? (fun e => decide (e.1 = k))).map (fun e => e.2)

/-- Python `needle in hay` on strings: substring containment. -/
def substrB (needle hay : String) : Bool :=
  hay.toList.tails.any (fun suf => needle.toList.isPrefixOf suf)

/-- A `ValidationError` record (severity kept as its string value). -/
structure ValidationError where
  field : String
  message : String
  severity : String
  task_id : Option String := none
deriving DecidableEq, Repr

/-- The direct legacy-agent mapping of `_suggest_agent_migration`. -/
def agent_migration_map : List (String × String) :=
  [("ARCHAIOS_PRIME", "ARCHITECT"), ("CONSENSUS_ENGINE", "MANAGER"),
   ("TheArchitect", "ARCHITECT"), ("GOVERNANCE_ADVISOR", "MANAGER"),
   ("BUILDFLOW", "DEVOPS"), ("AUTOSYNTH", "AUTOMATION"),
   ("DesignSynth", "DESIGNER"), ("CODEFORGE", "DEVELOPER"),
   ("OpsMind", "DEVOPS"), ("COMPLIANCE_SENTINEL", "REVIEWER"),
   ("PERMIT_WATCHDOG", "SECURITY"), ("JurisMind", "ANALYST"),
   ("LegalSentinel", "ANALYST"), ("RISK_DOCTOR", "ANALYST"),
   ("GRANT_WRANGLER", "MANAGER"), ("ResearchOracle", "RESEARCHER"),
   ("SCENARIO_SMITH", "ANALYST"), ("TRACE_SYNTHESIZER", "DEVELOPER"),
   ("MemoryWeaver", "DEVELOPER"), ("SECSENTINEL", "SECURITY"),
   ("SIM_ENGINEER", "DEVELOPER"), ("TESTCRAFTERPRO", "TESTER"),
   ("STAKEHOLDERVOICE", "MANAGER"), ("NARRATIVE_WARDEN", "DOCUMENTER"),
   ("TASK_VERIFIER_REWRITER", "REVIEWER"), ("EthosGolem", "ANALYST"),
   ("ECOSENTRY", "SECURITY"), ("FINANCEORACLE", "ANALYST"),
   ("DEVELOPER", "DEVELOPER")]

/-- The `task_text` an agent suggestion scores keywords against. -/
def taskText (t : Task) : String := (t.title ++ " " ++ t.description).toLower

/-- Keyword hit count for one agent: `sum(1 for kw in keywords if kw in text)`. -/
def keyword_score (keywords : List String) (text : String) : Nat :=
  (keywords.filter (fun kw => substrB kw text)).length

/-- The `agent_scores` dict: agents whose keyword score is positive, in
capability-table order. -/
def agent_scores (text : String) : List (String × Nat) :=
  AGENT_CAPABILITIES.filterMap (fun e =>
    let s := keyword_score e.2 text
    if s > 0 then some (e.1, s) else none)

/-- `max(agent_scores, key=agent_scores.get)`: the first key attaining the
maximal score, in insertion order; `none` on an empty dict. -/
def max_by_score : List (String × Nat) → Option String
  | [] => none
  | p :: rest =>
    some (rest.foldl (fun best q => if q.2 > best.2 then q else best) p).1

/-- `_suggest_agent_migration`: direct legacy mapping first, then keyword
scoring over task text, then the `DEVELOPER` fallback. -/
def suggest_agent_migration (unknown_agent : String) (t : Task) : Option String :=
  match alookup agent_migration_map unknown_agent with
  | some a => some a
  | none =>
    match max_by_score (agent_scores (taskText t)) with
    | some a => some a
    | none => some "DEVELOPER"

/-- Truthiness of a required attribute (`if not getattr(task, field)`); the
status field holds an enum member and is always truthy. -/
def requiredFieldMissing (t : Task) (f : String) : Bool :=
  match f with
  | "id" => ¬ strTruthy t.id
  | "title" => ¬ strTruthy t.title
  | "description" => ¬ strTruthy t.description
  | "agent" => ¬ strTruthy t.agent
  | _ => false

def required_fields : List String := ["id", "title", "description", "agent", "status"]

/-- `_validate_required_fields`. -/
def validate_required_fields (t : Task) : List ValidationError :=
  (required_fields.filter (requiredFieldMissing t)).map (fun f =>
    { field := f,
      message := "Required field \x27" ++ f ++ "\x27 is missing or empty",
      severity := "error", task_id := some t.id })

/-- A character of the id pattern `[a-zA-Z0-9_-]`. -/
def idChar (c : Char) : Bool := c.isAlpha || c.isDigit || c = '_' || c = '-'

/-- `id_pattern.match`: one or more pattern characters spanning the string. -/
def idPatternMatch (s : String) : Bool := strTruthy s && s.toList.all idChar

/-- `_validate_field_formats`. -/
def validate_field_formats (t : Task) : List ValidationError :=
  (if strTruthy t.id ∧ ¬ idPatternMatch t.id then
    [{ field := "id",
       message := "Task ID must contain only letters, numbers, hyphens, and underscores",
       severity := "error", task_id := some t.id }] else [])
  ++ (if strTruthy t.title ∧ t.title.length > 100 then
    [{ field := "title", message := "Title exceeds maximum length of 100 characters",
       severity := "warning", task_id := some t.id }] else [])
  ++ (if strTruthy t.description ∧ t.description.length > 5000 then
    [{ field := "description",
       message := "Description exceeds maximum length of 5000 characters",
       severity := "warning", task_id := some t.id }] else [])
  ++ (if t.dependencies ≠ [] ∧ t.dependencies.length > 10 then
    [{ field := "dependencies", message := "Task has too many dependencies (max: 10)",
       severity := "warning", task_id := some t.id }] else [])
  ++ (if t.tags ≠ [] then
    (if t.tags.length > 5 then
      [{ field := "tags", message := "Too many tags (max: 5)",
         severity := "warning", task_id := some t.id }] else [])
    ++ (t.tags.filter (fun tag => decide (tag ∉ VALID_TAGS))).map (fun tag =>
      { field := "tags", message := "Invalid tag: \x27" ++ tag ++ "\x27.",
        severity := "warning", task_id := some t.id })
    else [])

/-- `_validate_business_rules`. -/
def validate_business_rules (t : Task) : List ValidationError :=
  (if t.status = .todo ∧ t.dependencies ≠ [] then
    [{ field := "status",
       message := "Tasks with unresolved dependencies should be BLOCKED or PENDING, not TODO",
       severity := "warning", task_id := some t.id }] else [])
  ++ (if t.status = .complete ∧ t.updated_at = none then
    [{ field := "updated_at",
       message := "Completed tasks must have an updated_at timestamp",
       severity := "error", task_id := some t.id }] else [])
  ++ (if t.priority = .critical ∧ t.due_date = none then
    [{ field := "due_date", message := "Critical priority tasks should have a due date",
       severity := "warning", task_id := some t.id }] else [])
  ++ (if optNatTruthy t.actual_hours ∧ optNatTruthy t.estimated_hours
        ∧ t.actual_hours.getD 0 > 2 * t.estimated_hours.getD 0 then
    [{ field := "actual_hours",
       message := "Actual hours significantly exceed estimated hours - consider reviewing estimation process",
       severity := "info", task_id := some t.id }] else [])

/-- `_validate_agent_assignment`. -/
def validate_agent_assignment (t : Task) : List ValidationError :=
  (if strTruthy t.agent ∧ alookup AGENT_CAPABILITIES t.agent = none then
    match suggest_agent_migration t.agent t with
    | some s =>
      if strTruthy s then
        [{ field := "agent",
           message := "Unknown agent \x27" ++ t.agent ++ "\x27. Suggested migration: \x27"
             ++ s ++ "\x27 (auto-fixable)",
           severity := "warning", task_id := some t.id }]
      else
        [{ field := "agent", message := "Unknown agent \x27" ++ t.agent ++ "\x27.",
           severity := "error", task_id := some t.id }]
    | none =>
      [{ field := "agent", message := "Unknown agent \x27" ++ t.agent ++ "\x27.",
         severity := "error", task_id := some t.id }]
   else [])
  ++ (match alookup AGENT_CAPABILITIES t.agent with
    | some expected_keywords =>
      if ¬ expected_keywords.any (fun kw => substrB kw (taskText t)) then
        [{ field := "agent",
           message := "Task content may not match agent capabilities",
           severity := "info", task_id := some t.id }]
      else []
    | none => [])

/-- One year past `now` (`now.replace(year=now.year + 1)`), abstracted to a
365-day second count; it feeds only an info-severity result, which
`validate_task` discards. -/
def plusOneYear (now : Nat) : Nat := now + 31536000

/-- `_validate_dates`. -/
def validate_dates (t : Task) (now : Nat) : List ValidationError :=
  (match t.created_at with
   | some c =>
     if c > now + 5 then
       [{ field := "created_at", message := "Created date cannot be in the future",
          severity := "error", task_id := some t.id }] else []
   | none => [])
  ++ (match t.created_at, t.updated_at with
   | some c, some u =>
     if u < c then
       [{ field := "updated_at", message := "Updated date cannot be before created date",
          severity := "error", task_id := some t.id }] else []
   | _, _ => [])
  ++ (match t.due_date with
   | some d =>
     (if d < now ∧ t.status ≠ .complete ∧ t.status ≠ .cancelled then
       [{ field := "due_date", message := "Task is overdue",
          severity := "warning", task_id := some t.id }] else [])
     ++ (if d > plusOneYear now then
       [{ field := "due_date",
          message := "Due date is more than 1 year in the future - consider breaking into smaller tasks",
          severity := "info", task_id := some t.id }] else [])
   | none => [])

/-- `_validate_task_dependencies`. -/
def validate_task_dependencies (t : Task) : List ValidationError :=
  if t.dependencies = [] then []
  else
    (if t.id ∈ t.dependencies then
      [{ field := "dependencies", message := "Task cannot depend on itself",
         severity := "error", task_id := some t.id }] else [])
    ++ (if t.dependencies.length ≠ (dedupFirst t.dependencies).length then
      [{ field := "dependencies", message := "Duplicate dependencies found",
         severity := "warning", task_id := some t.id }] else [])
    ++ (t.dependencies.filter (fun d => ¬ idPatternMatch d)).map (fun d =>
      { field := "dependencies",
        message := "Invalid dependency ID format: \x27" ++ d ++ "\x27.",
        severity := "error", task_id := some t.id })

/-- `validate_task`: run every per-record validator in order and split the
results into (warnings, errors); info-severity results are dropped. -/
def validate_task (t : Task) (now : Nat) :
    List ValidationError × List ValidationError :=
  let results :=
    validate_required_fields t ++ validate_field_formats t
    ++ validate_business_rules t ++ validate_agent_assignment t
    ++ validate_dates t now ++ validate_task_dependencies t
  (results.filter (fun e => decide (e.severity = "warning")),
   results.filter (fun e => decide (e.severity = "error")))

/-! ## Graph traversals: system-wide cycle detection and dependency chains

Both Python recursions are modelled with an explicit fuel bounding the
recursion depth; the termination theorems show the natural fuel always
suffices (the result is `some _`), which is what "terminates, does not
infinite-loop" means for the source recursion. -/

/-- The DFS state of `_find_circular_dependencies`. -/
structure DfsState where
  visited : List String
  recStack : List String
  cycles : List (List String)
deriving DecidableEq, Repr

/-- The key set of the task dict. -/
def taskKeys (tasks : List Task) : List String := tasks.map (fun t => t.id)

/-- `path[path.index(task_id):]`. -/
def cycleFrom (path : List String) (task_id : String) : List String :=
  path.drop (path.findIdx (fun x => decide (x = task_id)))

/-- The `for dep_id in task.dependencies` loop of the DFS, recursing through
the supplied visitor on dependencies that are themselves keys. -/
def dfsDeps (keys : List String)
    (visit : String → List String → DfsState → Option DfsState) :
    List String → List String → DfsState → Option DfsState
  | [], _, st => some st
  | dep :: rest, path, st =>
    match (if dep ∈ keys then visit dep (path ++ [dep]) st else some st) with
    | none => none
    | some st' => dfsDeps keys visit rest path st'

/-- The dependency list the DFS walks for a key: `task_dict[task_id].dependencies`
(empty when the id is not a key, which the callers never hit). -/
def depsOf (tasks : List Task) (task_id : String) : List String :=
  match tasks.find? (fun t => decide (t.id = task_id)) with
  | some t => t.dependencies
  | none => []

/-- The recursive `dfs` of `_find_circular_dependencies`: a node on the
recursion stack closes a cycle; a visited node is skipped; otherwise the node
is marked, its dependencies walked, and the stack entry removed. -/
def dfsVisit (tasks : List Task) : Nat → String → List String → DfsState →
    Option DfsState
  | 0, _, _, _ => none
  | fuel + 1, task_id, path, st =>
    if task_id ∈ st.recStack then
      some { st with cycles := st.cycles ++ [cycleFrom path task_id] }
    else if task_id ∈ st.visited then some st
    else
      let st1 : DfsState :=
        { st with visited := task_id :: st.visited,
                  recStack := task_id :: st.recStack }
      match dfsDeps (taskKeys tasks) (dfsVisit tasks fuel)
          (depsOf tasks task_id) path st1 with
      | none => none
      | some st2 => some { st2 with recStack := st2.recStack.erase task_id }

/-- The outer loop of `_find_circular_dependencies` over every key. -/
def find_circular_go (tasks : List Task) (fuel : Nat) :
    List String → DfsState → Option DfsState
  | [], st => some st
  | tid :: rest, st =>
    if tid ∈ st.visited then find_circular_go tasks fuel rest st
    else
      match dfsVisit tasks fuel tid [tid] st with
      | none => none
      | some st' => find_circular_go tasks fuel rest st'

/-- `_find_circular_dependencies`, run with its natural fuel (the recursion
nests at most once per unvisited key, plus the closing frame). -/
def find_circular_dependencies (tasks : List Task) : Option (List (List String)) :=
  (find_circular_go tasks (tasks.length + 1) (taskKeys tasks) ⟨[], [], []⟩).map
    (fun st => st.cycles)

/-- The `for dep_id in task.dependencies` loop of `_build_chain`: recurse
into the dependency, then append it to the chain unless already present. -/
def chainDeps (visit : String → List String × List String →
    Option (List String × List String)) :
    List String → List String × List String → Option (List String × List String)
  | [], st => some st
  | dep :: rest, st =>
    match visit dep st with
    | none => none
    | some st' =>
      chainDeps visit rest (if dep ∈ st'.2 then st' else (st'.1, st'.2 ++ [dep]))

/-- `_build_chain` of `get_dependency_chain`: state is (visited, chain). -/
def chainVisit (m : Manager) : Nat → String → List String × List String →
    Option (List String × List String)
  | 0, _, _ => none
  | fuel + 1, tid, st =>
    if tid ∈ st.1 then some st
    else
      let st1 := (tid :: st.1, st.2)
      match getTask m tid with
      | none => some st1
      | some task => chainDeps (chainVisit m fuel) task.dependencies st1

/-- Every id the chain recursion can ever be called on: the root plus every
dependency mentioned by a cached record. -/
def chainUniverse (m : Manager) (task_id : String) : List String :=
  task_id :: m.tasks.flatMap (fun t => t.dependencies)

/-- `get_dependency_chain`, run with its natural fuel. -/
def get_dependency_chain (m : Manager) (task_id : String) : Option (List String) :=
  (chainVisit m ((chainUniverse m task_id).length + 1) task_id ([], [])).map
    (fun st => st.2)

/-! ## Persistence round trip -/

/-- The normalization `Task.from_dict` applies after parsing a stored record:
`__post_init__` fills missing timestamps with now, then created_at is clamped
to now, updated_at is clamped to now, and updated_at is raised to created_at.
The YAML frontmatter and ISO-8601 formats round-trip every stored field value
exactly, so loading the file written for a record parses that record back and
applies exactly this normalization. -/
def task_from_dict_normalize (rec : Task) (now : Nat) : Task :=
  let c0 := rec.created_at.getD now
  let u0 := rec.updated_at.getD now
  let c1 := if c0 > now then now else c0
  let u1 := if u0 > now then now else u0
  let u2 := if u1 < c1 then c1 else u1
  { rec with created_at := some c1, updated_at := some u2 }

/-! ## Concrete-state helpers -/

/-- A freshly loaded manager state: cache, dependency graph and disk built
from a list of records, as `load_all_tasks` leaves them. -/
def Manager.ofTasks (ts : List Task) : Manager :=
  { tasks := ts,
    graph := ts.map (fun t => (t.id, t.dependencies)),
    disk := ts.map (fun t => ((t.status, t.id), t)) }

/-- A small concrete record for witnesses. -/
def mkTask (id : String) (st : TaskStatus) (deps : List String) : Task :=
  { id := id, title := "t", description := "d", agent := "DEVELOPER",
    status := st, priority := .medium, created_at := some 0,
    updated_at := some 0, due_date := none, dependencies := deps,
    notes := none, estimated_hours := none, actual_hours := none,
    assignee := none, tags := [] }

/-- Modelled from the claim text: the allowed transition table exactly as the
specification lists it, for comparison with `_is_valid_status_transition`. -/
def spec_allowed_transitions : List (TaskStatus × TaskStatus) :=
  [(.pending, .todo), (.pending, .blocked), (.pending, .cancelled),
   (.blocked, .todo), (.blocked, .pending), (.blocked, .cancelled),
   (.todo, .in_progress), (.todo, .blocked), (.todo, .cancelled), (.todo, .complete),
   (.in_progress, .complete), (.in_progress, .todo), (.in_progress, .blocked),
   (.complete, .in_progress),
   (.cancelled, .pending), (.cancelled, .todo)]

/-- Membership in the specification's transition table. -/
def specAllowed (curr new : TaskStatus) : Bool :=
  decide ((curr, new) ∈ spec_allowed_transitions)

/-- Reading a file back from the modelled disk. -/
def diskGet (d : List ((TaskStatus × String) × Task)) (key : TaskStatus × String) :
    Option Task :=
  (d.find? (fun e => decide (e.1 = key))).map (fun e => e.2)

/-- What one `_update_references` iteration does to the record it visits:
rewrite and save when the old id occurs in its dependencies, otherwise leave
it untouched. -/
def urStep (old_task_id new_task_id : String) (now : Nat) (r : Task) : Task :=
  if old_task_id ∈ r.dependencies then
    let deps' := dedupFirst (r.dependencies.map
      (fun dep => if dep = old_task_id then new_task_id else dep))
    savedForm { r with dependencies := deps' } now
  else r

/-- How a cache record may evolve across an `auto_transition_ready_tasks`
pass: same id and dependencies, and the status either untouched or moved
from blocked to todo. -/
def passRel (u v : Task) : Prop :=
  u.id = v.id ∧ u.dependencies = v.dependencies ∧
    (u.status = v.status ∨ (u.status = .todo ∧ v.status = .blocked))

/-- The cyclic three-task store A depends on B depends on C depends on A. -/
def cycleDemoTasks : List Task :=
  [mkTask "a" .todo ["b"], mkTask "b" .todo ["c"], mkTask "c" .todo ["a"]]

def cycleDemoManager : Manager := Manager.ofTasks cycleDemoTasks

/-- A one-task store for update witnesses. -/
def soloManager : Manager := Manager.ofTasks [mkTask "a" .todo []]

/-- A store where removing x in favour of y tests reference rewriting:
y depends on x, and x carries a dependency of its own. -/
def mergeDemoManager : Manager :=
  Manager.ofTasks [mkTask "x" .todo ["z"], mkTask "y" .todo ["x"]]

def mergeDemoStrategy : MergeStrategy :=
  create_auto_merge_strategy (mkTask "y" .todo ["x"]) (mkTask "x" .todo ["z"])

/-- Like `mergeDemoManager` with a third task w that also depends on x. -/
def mergeDemoManager2 : Manager :=
  Manager.ofTasks
    [mkTask "x" .todo ["z"], mkTask "y" .todo ["x"], mkTask "w" .todo ["x"]]

/-- A record updated strictly later than `richerTask` but less complete. -/
def newerTask : Task := { mkTask "p" .todo [] with updated_at := some 10 }

/-- A record updated strictly earlier than `newerTask` but more complete. -/
def richerTask : Task :=
  { mkTask "q" .todo [] with updated_at := some 3, tags := ["cli"], notes := some "n", assignee := some "z" }

/-- A record whose created_at lies in the future at save time. -/
def futureTask : Task := { mkTask "r" .todo [] with created_at := some 100 }

/-- A store with one satisfied blocked task, for transition witnesses. -/
def unblockManager : Manager :=
  Manager.ofTasks [mkTask "d" .complete [], mkTask "e" .blocked ["d"]]

/-- A record with an agent string outside the capability registry. -/
def strayAgentTask : Task := { mkTask "s" .todo [] with agent := "WEIRD_AGENT" }

/-! ## Toolkit lemmas -/

theorem savedForm_id (t : Task) (now : Nat) : (savedForm t now).id = t.id := rfl

theorem savedForm_status (t : Task) (now : Nat) :
    (savedForm t now).status = t.status := rfl

theorem savedForm_deps (t : Task) (now : Nat) :
    (savedForm t now).dependencies = t.dependencies := rfl

theorem applyStatusChange_id (task : Task) (s : TaskStatus) (notes : Option String)
    (now : Nat) : (applyStatusChange task s notes now).id = task.id := by
  unfold applyStatusChange
  cases notes with
  | none => rfl
  | some n => dsimp only; split <;> rfl

theorem applyStatusChange_status (task : Task) (s : TaskStatus)
    (notes : Option String) (now : Nat) :
    (applyStatusChange task s notes now).status = s := by
  unfold applyStatusChange
  cases notes with
  | none => rfl
  | some n => dsimp only; split <;> rfl

theorem applyStatusChange_deps (task : Task) (s : TaskStatus)
    (notes : Option String) (now : Nat) :
    (applyStatusChange task s notes now).dependencies = task.dependencies := by
  unfold applyStatusChange
  cases notes with
  | none => rfl
  | some n => dsimp only; split <;> rfl

theorem getTask_mem {m : Manager} {tid : String} {t : Task}
    (h : getTask m tid = some t) : t ∈ m.tasks ∧ t.id = tid := by
  refine ⟨List.mem_of_find?_eq_some h, ?_⟩
  have := List.find?_some h
  exact of_decide_eq_true this

theorem any_id_of_getTask {m : Manager} {tid : String} {t : Task}
    (h : getTask m tid = some t) :
    m.tasks.any (fun u => decide (u.id = tid)) = true := by
  obtain ⟨hmem, hid⟩ := getTask_mem h
  exact List.any_eq_true.2 ⟨t, hmem, by simpa using hid⟩

theorem replaceById_cons (a : Task) (as : List Task) (t : Task) :
    replaceById (a :: as) t = (if a.id = t.id then t else a) :: replaceById as t := rfl

theorem find?_replaceById_ne (ts : List Task) (t : Task) (x : String)
    (hx : x ≠ t.id) :
    (replaceById ts t).find? (fun u => decide (u.id = x))
      = ts.find? (fun u => decide (u.id = x)) := by
  induction ts with
  | nil => rfl
  | cons a as ih =>
    rw [replaceById_cons]
    by_cases h : a.id = t.id
    · rw [if_pos h]
      rw [List.find?_cons_of_neg, List.find?_cons_of_neg]
      · exact ih
      · simp [h]; exact fun hc => hx hc.symm
      · simp; exact fun hc => hx hc.symm
    · rw [if_neg h]
      by_cases h3 : a.id = x
      · rw [List.find?_cons_of_pos, List.find?_cons_of_pos] <;> simp [h3]
      · rw [List.find?_cons_of_neg, List.find?_cons_of_neg]
        · exact ih
        · simp [h3]
        · simp [h3]

theorem find?_replaceById_eq (ts : List Task) (t : Task)
    (h : ts.any (fun u => decide (u.id = t.id)) = true) :
    (replaceById ts t).find? (fun u => decide (u.id = t.id)) = some t := by
  induction ts with
  | nil => simp at h
  | cons a as ih =>
    rw [replaceById_cons]
    by_cases ha : a.id = t.id
    · rw [if_pos ha]
      apply List.find?_cons_of_pos
      simp
    · rw [if_neg ha]
      rw [List.find?_cons_of_neg]
      · apply ih
        simpa [List.any_cons, ha] using h
      · simp [ha]

theorem ids_replaceById (ts : List Task) (t : Task) :
    (replaceById ts t).map (fun u => u.id) = ts.map (fun u => u.id) := by
  induction ts with
  | nil => rfl
  | cons a as ih =>
    rw [replaceById_cons, List.map_cons, List.map_cons, ih]
    by_cases h : a.id = t.id
    · rw [if_pos h]
      simp [h]
    · rw [if_neg h]

theorem any_id_replaceById (ts : List Task) (t : Task) (x : String) :
    (replaceById ts t).any (fun u => decide (u.id = x))
      = ts.any (fun u => decide (u.id = x)) := by
  have h1 : ∀ l : List Task, l.any (fun u => decide (u.id = x))
      = (l.map (fun u => u.id)).any (fun i => decide (i = x)) := by
    intro l; induction l with
    | nil => rfl
    | cons a as ih => simp [List.any_cons, ih]
  rw [h1, h1, ids_replaceById]

theorem replaceById_replaceById (ts : List Task) (a b : Task)
    (hab : b.id = a.id) :
    replaceById (replaceById ts a) b = replaceById ts b := by
  unfold replaceById
  rw [List.map_map]
  apply List.map_congr_left
  intro u _
  simp only [Function.comp_apply]
  by_cases h : u.id = a.id
  · have h2 : u.id = b.id := h.trans hab.symm
    have h3 : a.id = b.id := hab.symm
    rw [if_pos h, if_pos h3, if_pos h2]
  · have h2 : ¬ (u.id = b.id) := fun hc => h (hc.trans hab)
    rw [if_neg h, if_neg h2]
    try rw [if_neg h2]

theorem save_task_fst (m : Manager) (t : Task) (now : Nat) (pOk : Bool) :
    (save_task m t now pOk).1 = pOk := by
  unfold save_task
  cases pOk <;> simp

theorem save_task_tasks (m : Manager) (t : Task) (now : Nat) (pOk : Bool)
    (h : m.tasks.any (fun u => decide (u.id = t.id)) = true) :
    ((save_task m t now pOk).2).tasks = replaceById m.tasks (savedForm t now) := by
  have h' : (m.tasks.any fun u => decide (u.id = (savedForm t now).id)) = true := h
  cases pOk with
  | false =>
    show (if (m.tasks.any fun u => decide (u.id = (savedForm t now).id)) = true
      then replaceById m.tasks (savedForm t now) else m.tasks) = _
    rw [if_pos h']
  | true =>
    show (putCache (if (m.tasks.any fun u => decide (u.id = (savedForm t now).id)) = true
      then replaceById m.tasks (savedForm t now) else m.tasks) (savedForm t now)) = _
    rw [if_pos h']
    rw [putCache, any_id_replaceById]
    rw [if_pos h']
    exact replaceById_replaceById _ _ _ rfl

theorem save_task_graph_disk_false (m : Manager) (t : Task) (now : Nat) :
    ((save_task m t now false).2).graph = m.graph
      ∧ ((save_task m t now false).2).disk = m.disk :=
  ⟨rfl, rfl⟩

theorem getTask_save (m : Manager) (t : Task) (now : Nat) (pOk : Bool) (x : String)
    (h : m.tasks.any (fun u => decide (u.id = t.id)) = true) :
    getTask (save_task m t now pOk).2 x
      = if x = t.id then some (savedForm t now) else getTask m x := by
  unfold getTask
  rw [save_task_tasks _ _ _ _ h]
  by_cases hx : x = t.id
  · rw [if_pos hx]
    subst hx
    exact find?_replaceById_eq m.tasks (savedForm t now) h
  · rw [if_neg hx]
    exact find?_replaceById_ne m.tasks (savedForm t now) x hx

theorem core_of_none (m : Manager) (tid : String) (s : TaskStatus)
    (notes : Option String) (now : Nat) (pOk : Bool)
    (h : getTask m tid = none) :
    update_task_status_core m tid s notes now pOk = (false, m) := by
  unfold update_task_status_core
  rw [h]

theorem core_of_invalid (m : Manager) (tid : String) (s : TaskStatus)
    (notes : Option String) (now : Nat) (pOk : Bool) (task : Task)
    (h : getTask m tid = some task)
    (hv : is_valid_status_transition task.status s = false) :
    update_task_status_core m tid s notes now pOk = (false, m) := by
  unfold update_task_status_core
  rw [h]
  dsimp only
  rw [if_pos]
  simp [hv]

theorem core_of_unsat (m : Manager) (tid : String) (notes : Option String)
    (now : Nat) (pOk : Bool) (task : Task)
    (h : getTask m tid = some task)
    (hv : is_valid_status_transition task.status .todo = true)
    (hsat : dependencies_satisfied m tid = false) :
    update_task_status_core m tid .todo notes now pOk = (false, m) := by
  unfold update_task_status_core
  rw [h]
  dsimp only
  rw [if_neg (by simp [hv]), if_pos ⟨rfl, by simp [hsat]⟩]

theorem core_fires_eq (m : Manager) (tid : String) (s : TaskStatus)
    (notes : Option String) (now : Nat) (pOk : Bool) (task : Task)
    (h : getTask m tid = some task)
    (hv : is_valid_status_transition task.status s = true)
    (hsat : s = .todo → dependencies_satisfied m tid = true) :
    update_task_status_core m tid s notes now pOk
      = save_task { m with tasks := replaceById m.tasks (applyStatusChange task s notes now) }
          (applyStatusChange task s notes now) now pOk := by
  unfold update_task_status_core
  rw [h]
  dsimp only
  rw [if_neg (by simp [hv]), if_neg]
  rintro ⟨h1, h2⟩
  exact h2 (by simp [hsat h1])

theorem core_fires_fst (m : Manager) (tid : String) (s : TaskStatus)
    (notes : Option String) (now : Nat) (pOk : Bool) (task : Task)
    (h : getTask m tid = some task)
    (hv : is_valid_status_transition task.status s = true)
    (hsat : s = .todo → dependencies_satisfied m tid = true) :
    (update_task_status_core m tid s notes now pOk).1 = pOk := by
  rw [core_fires_eq m tid s notes now pOk task h hv hsat]
  exact save_task_fst _ _ _ _

theorem any_id_applied (m : Manager) (tid : String) (s : TaskStatus)
    (notes : Option String) (now : Nat) (task : Task)
    (h : getTask m tid = some task) :
    m.tasks.any (fun u => decide (u.id = (applyStatusChange task s notes now).id)) = true := by
  have h1 : (applyStatusChange task s notes now).id = tid := by
    rw [applyStatusChange_id, (getTask_mem h).2]
  simp only [h1]
  exact any_id_of_getTask h

theorem core_fires_tasks (m : Manager) (tid : String) (s : TaskStatus)
    (notes : Option String) (now : Nat) (pOk : Bool) (task : Task)
    (h : getTask m tid = some task)
    (hv : is_valid_status_transition task.status s = true)
    (hsat : s = .todo → dependencies_satisfied m tid = true) :
    ((update_task_status_core m tid s notes now pOk).2).tasks
      = replaceById m.tasks (savedForm (applyStatusChange task s notes now) now) := by
  rw [core_fires_eq m tid s notes now pOk task h hv hsat]
  rw [save_task_tasks]
  · exact replaceById_replaceById _ _ _ rfl
  · show (replaceById m.tasks (applyStatusChange task s notes now)).any _ = true
    rw [any_id_replaceById]
    exact any_id_applied m tid s notes now task h

theorem getTask_core_fires (m : Manager) (tid : String) (s : TaskStatus)
    (notes : Option String) (now : Nat) (pOk : Bool) (task : Task)
    (h : getTask m tid = some task)
    (hv : is_valid_status_transition task.status s = true)
    (hsat : s = .todo → dependencies_satisfied m tid = true) (x : String) :
    getTask ((update_task_status_core m tid s notes now pOk).2) x
      = if x = tid then some (savedForm (applyStatusChange task s notes now) now)
        else getTask m x := by
  have hid : (savedForm (applyStatusChange task s notes now) now).id = tid := by
    rw [savedForm_id, applyStatusChange_id, (getTask_mem h).2]
  unfold getTask
  rw [core_fires_tasks m tid s notes now pOk task h hv hsat]
  by_cases hx : x = tid
  · rw [if_pos hx]
    subst hx
    have hany : m.tasks.any
        (fun u => decide (u.id = (savedForm (applyStatusChange task s notes now) now).id)) = true := by
      simp only [hid]
      exact any_id_of_getTask h
    have := find?_replaceById_eq m.tasks (savedForm (applyStatusChange task s notes now) now) hany
    simpa only [hid] using this
  · rw [if_neg hx]
    apply find?_replaceById_ne
    rw [hid]
    exact hx

theorem core_fst_cases (m : Manager) (tid : String) (s : TaskStatus)
    (notes : Option String) (now : Nat) (pOk : Bool)
    (h1 : (update_task_status_core m tid s notes now pOk).1 = true) :
    pOk = true ∧ ∃ task, getTask m tid = some task
      ∧ is_valid_status_transition task.status s = true
      ∧ (s = .todo → dependencies_satisfied m tid = true) := by
  cases hg : getTask m tid with
  | none =>
    rw [core_of_none m tid s notes now pOk hg] at h1
    simp at h1
  | some task =>
    by_cases hv : is_valid_status_transition task.status s = true
    · by_cases hsat : s = .todo → dependencies_satisfied m tid = true
      · rw [core_fires_fst m tid s notes now pOk task hg hv hsat] at h1
        exact ⟨h1, task, rfl, hv, hsat⟩
      · push_neg at hsat
        obtain ⟨hs, hns⟩ := hsat
        have hfalse : dependencies_satisfied m tid = false := by
          cases hd : dependencies_satisfied m tid
          · rfl
          · exact absurd hd hns
        subst hs
        rw [core_of_unsat m tid notes now pOk task hg hv hfalse] at h1
        simp at h1
    · have hv' : is_valid_status_transition task.status s = false := by
        cases hb : is_valid_status_transition task.status s
        · rfl
        · exact absurd hb hv
      rw [core_of_invalid m tid s notes now pOk task hg hv'] at h1
      simp at h1

theorem update_unfold (m : Manager) (tid : String) (s : TaskStatus)
    (notes : Option String) (now : Nat) (pOk : Bool) :
    update_task_status m tid s notes now pOk
      = (if (update_task_status_core m tid s notes now pOk).1 then
          (true, update_dependent_tasks_with
            (update_task_status_fuel (m.tasks.length + 1))
            (update_task_status_core m tid s notes now pOk).2 tid now pOk)
         else (false, (update_task_status_core m tid s notes now pOk).2)) := rfl

theorem update_fst (m : Manager) (tid : String) (s : TaskStatus)
    (notes : Option String) (now : Nat) (pOk : Bool) :
    (update_task_status m tid s notes now pOk).1
      = (update_task_status_core m tid s notes now pOk).1 := by
  rw [update_unfold]
  cases hr : (update_task_status_core m tid s notes now pOk).1 <;> simp [hr]

theorem update_of_core_false (m : Manager) (tid : String) (s : TaskStatus)
    (notes : Option String) (now : Nat) (pOk : Bool)
    (h : (update_task_status_core m tid s notes now pOk).1 = false) :
    update_task_status m tid s notes now pOk
      = (false, (update_task_status_core m tid s notes now pOk).2) := by
  rw [update_unfold, h]
  simp

theorem update_ne_complete (m : Manager) (tid : String) (s : TaskStatus)
    (notes : Option String) (now : Nat) (pOk : Bool) (hs : s ≠ .complete) :
    update_task_status m tid s notes now pOk
      = update_task_status_core m tid s notes now pOk := by
  rw [update_unfold]
  cases hr : (update_task_status_core m tid s notes now pOk).1 with
  | false =>
    simp only [Bool.false_eq_true, if_false]
    rw [← hr, Prod.mk.eta]
  | true =>
    simp only [if_true]
    obtain ⟨hpOk, task, hg, hv, hsat⟩ := core_fst_cases m tid s notes now pOk hr
    have hgt := getTask_core_fires m tid s notes now pOk task hg hv hsat tid
    rw [if_pos rfl] at hgt
    have hcasc : update_dependent_tasks_with
        (update_task_status_fuel (m.tasks.length + 1))
        (update_task_status_core m tid s notes now pOk).2 tid now pOk
        = (update_task_status_core m tid s notes now pOk).2 := by
      unfold update_dependent_tasks_with
      rw [hgt]
      dsimp only
      rw [if_pos]
      rw [savedForm_status, applyStatusChange_status]
      exact hs
    rw [hcasc]
    rw [← hr, Prod.mk.eta]

/-! ## Claim theorems -/

/-- C1: the transition table of `_is_valid_status_transition` is exactly the
table the specification lists; for any cached task, `update_task_status` to a
target in the table succeeds when the todo-dependency precondition and the
persist step hold, and for any target outside the table it returns failure
leaving the whole store (in particular the record's status) unchanged. -/
theorem claim_C1_transition_table :
    (∀ c n, specAllowed c n = is_valid_status_transition c n)
    ∧ (∀ (m : Manager) (tid : String) (task : Task) (s : TaskStatus)
        (notes : Option String) (now : Nat),
        getTask m tid = some task →
        specAllowed task.status s = true →
        (s = .todo → dependencies_satisfied m tid = true) →
        (update_task_status m tid s notes now true).1 = true)
    ∧ (∀ (m : Manager) (tid : String) (task : Task) (s : TaskStatus)
        (notes : Option String) (now : Nat) (pOk : Bool),
        getTask m tid = some task →
        specAllowed task.status s = false →
        update_task_status m tid s notes now pOk = (false, m)) := by
  have bridge : ∀ c n, specAllowed c n = is_valid_status_transition c n := by
    intro c n
    cases c <;> cases n <;> rfl
  refine ⟨bridge, ?_, ?_⟩
  · intro m tid task s notes now hg hall hsat
    rw [update_fst]
    rw [core_fires_fst m tid s notes now true task hg (by rw [← bridge]; exact hall) hsat]
  · intro m tid task s notes now pOk hg hall
    have hv : is_valid_status_transition task.status s = false := by
      rw [← bridge]; exact hall
    have hcore := core_of_invalid m tid s notes now pOk task hg hv
    rw [update_of_core_false m tid s notes now pOk (by rw [hcore])]
    rw [hcore]

/-- Witness for C1: in a one-task store, the todo task moves to in-progress,
and a move to pending (outside the table) fails leaving the store untouched. -/
theorem claim_C1_transition_table_witness :
    (update_task_status soloManager "a" .in_progress none 5 true).1 = true
    ∧ update_task_status soloManager "a" .pending none 5 true = (false, soloManager) := by
  constructor
  · exact claim_C1_transition_table.2.1 soloManager "a" (mkTask "a" .todo [])
      .in_progress none 5 (by decide) (by decide) (by decide)
  · exact claim_C1_transition_table.2.2 soloManager "a" (mkTask "a" .todo [])
      .pending none 5 true (by decide) (by decide)

/-- C2: for a cached task, `_dependencies_satisfied` is true exactly when
every listed dependency resolves to an existing record whose status is
complete; in particular an empty list is trivially satisfied and an
unresolved dependency id makes it false. -/
theorem claim_C2_dependencies_satisfied :
    ∀ (m : Manager) (tid : String) (task : Task),
      getTask m tid = some task →
      (dependencies_satisfied m tid = true ↔
        ∀ dep ∈ task.dependencies, ∃ d, getTask m dep = some d ∧ d.status = .complete) := by
  intro m tid task hg
  unfold dependencies_satisfied
  rw [hg]
  dsimp only
  by_cases hd : task.dependencies = []
  · simp [hd]
  · rw [if_neg hd, List.all_eq_true]
    constructor
    · intro h dep hdep
      have hx := h dep hdep
      cases hgd : getTask m dep with
      | none => rw [hgd] at hx; simp at hx
      | some d =>
        rw [hgd] at hx
        simp only [decide_eq_true_eq] at hx
        exact ⟨d, rfl, hx⟩
    · intro h dep hdep
      obtain ⟨d, hgd, hst⟩ := h dep hdep
      rw [hgd]
      simp [hst]

/-- Witness for C2: the blocked task e of `unblockManager` depends only on
the complete task d, so its dependencies are satisfied. -/
theorem claim_C2_dependencies_satisfied_witness :
    dependencies_satisfied unblockManager "e" = true := by
  refine (claim_C2_dependencies_satisfied unblockManager "e"
    (mkTask "e" .blocked ["d"]) (by decide)).2 ?_
  intro dep hdep
  have hdd : dep = "d" := by
    simpa [mkTask] using hdep
  subst hdd
  exact ⟨mkTask "d" .complete [], rfl, rfl⟩

/-- C3 counterexample: with a failing persist step, a valid transition on
the one-task store returns failure yet the cached record's status has moved
from todo to in-progress: the in-memory change is not reverted. -/
theorem claim_C3_counterexample :
    (update_task_status soloManager "a" .in_progress none 5 false).1 = false
    ∧ ((update_task_status soloManager "a" .in_progress none 5 false).2.tasks.map
        (fun t => t.status)) = [.in_progress]
    ∧ soloManager.tasks.map (fun t => t.status) = [.todo] := by
  decide

/-- C3 amended: when the persist step fails on a valid, precondition-satisfied
transition, `update_task_status` returns failure and leaves the disk
untouched, but the cached record already carries the new status (the
in-place mutation precedes the persist and is never reverted), so cache and
disk are left inconsistent rather than atomic. -/
theorem claim_C3_persist_failure_not_atomic :
    ∀ (m : Manager) (tid : String) (task : Task) (s : TaskStatus)
      (notes : Option String) (now : Nat),
      getTask m tid = some task →
      is_valid_status_transition task.status s = true →
      (s = .todo → dependencies_satisfied m tid = true) →
      (update_task_status m tid s notes now false).1 = false
      ∧ ((update_task_status m tid s notes now false).2).disk = m.disk
      ∧ ∃ t', getTask ((update_task_status m tid s notes now false).2) tid = some t'
          ∧ t'.status = s := by
  intro m tid task s notes now hg hv hsat
  have hfst : (update_task_status_core m tid s notes now false).1 = false := by
    rw [core_fires_fst m tid s notes now false task hg hv hsat]
  have hupd := update_of_core_false m tid s notes now false hfst
  refine ⟨by rw [hupd], ?_, ?_⟩
  · rw [hupd]
    dsimp only
    rw [core_fires_eq m tid s notes now false task hg hv hsat]
    exact (save_task_graph_disk_false _ _ _).2
  · refine ⟨savedForm (applyStatusChange task s notes now) now, ?_, ?_⟩
    · rw [hupd]
      dsimp only
      have hx := getTask_core_fires m tid s notes now false task hg hv hsat tid
      rw [if_pos rfl] at hx
      exact hx
    · rw [savedForm_status, applyStatusChange_status]

/-- Witness for the amended C3 on the one-task store. -/
theorem claim_C3_persist_failure_witness :
    (update_task_status soloManager "a" .in_progress none 5 false).1 = false
    ∧ ((update_task_status soloManager "a" .in_progress none 5 false).2).disk
        = soloManager.disk
    ∧ ∃ t', getTask ((update_task_status soloManager "a" .in_progress none 5 false).2) "a"
        = some t' ∧ t'.status = .in_progress :=
  claim_C3_persist_failure_not_atomic soloManager "a" (mkTask "a" .todo [])
    .in_progress none 5 (by decide) (by decide) (by decide)

/-- C9: a successful `update_task_status` whose target status is not complete
changes no record other than the updated one: the dependent-task cascade
returns immediately, so every other id resolves to exactly the record it
held before the call. -/
theorem claim_C9_non_complete_update_frames_others :
    ∀ (m : Manager) (tid : String) (s : TaskStatus) (notes : Option String)
      (now : Nat) (pOk : Bool),
      s ≠ .complete →
      (update_task_status m tid s notes now pOk).1 = true →
      ∀ x, x ≠ tid →
        getTask ((update_task_status m tid s notes now pOk).2) x = getTask m x := by
  intro m tid s notes now pOk hs hok x hx
  rw [update_ne_complete m tid s notes now pOk hs] at hok ⊢
  obtain ⟨hpOk, task, hg, hv, hsat⟩ := core_fst_cases m tid s notes now pOk hok
  have hgt := getTask_core_fires m tid s notes now pOk task hg hv hsat x
  rw [if_neg hx] at hgt
  exact hgt

/-- Witness for C9: updating a in the one-task store leaves an unrelated id
resolving exactly as before. -/
theorem claim_C9_frame_witness :
    getTask ((update_task_status soloManager "a" .in_progress none 5 true).2) "zz"
      = getTask soloManager "zz" :=
  claim_C9_non_complete_update_frames_others soloManager "a" .in_progress none 5 true
    (by decide) (by decide) "zz" (by decide)

/-- C5 counterexample: `newerTask` was updated strictly later (10 over 3),
yet the automatic strategy keeps `richerTask` because its completeness score
is higher — the completeness comparison is not restricted to ties. -/
theorem claim_C5_counterexample :
    (create_auto_merge_strategy newerTask richerTask).keep_task_id = richerTask.id
    ∧ richerTask.id ≠ newerTask.id
    ∧ newerTask.updated_at = some 10
    ∧ richerTask.updated_at = some 3
    ∧ task_completeness_score richerTask > task_completeness_score newerTask := by
  decide

/-- C5 amended: the automatic strategy keeps `task2` exactly when `task2` was
updated strictly more recently (both timestamps present) or, failing that,
when `task2` has the strictly greater completeness score — so the
completeness score is consulted whenever `task2` is not strictly newer,
including when `task1` is strictly newer, not only on ties; the kept and
removed ids always split the pair. -/
theorem claim_C5_keep_selection :
    ∀ t1 t2 : Task, t1.id ≠ t2.id →
      (((create_auto_merge_strategy t1 t2).keep_task_id = t2.id
        ↔ ((∃ u1 u2, t1.updated_at = some u1 ∧ t2.updated_at = some u2 ∧ u2 > u1)
           ∨ task_completeness_score t2 > task_completeness_score t1))
      ∧ (((create_auto_merge_strategy t1 t2).keep_task_id = t1.id
          ∧ (create_auto_merge_strategy t1 t2).remove_task_id = t2.id)
        ∨ ((create_auto_merge_strategy t1 t2).keep_task_id = t2.id
          ∧ (create_auto_merge_strategy t1 t2).remove_task_id = t1.id))) := by
  intro t1 t2 hne
  unfold create_auto_merge_strategy
  cases h2 : t2.updated_at with
  | none =>
    cases h1 : t1.updated_at with
    | none =>
      by_cases hsc : task_completeness_score t2 > task_completeness_score t1
      · simp [hsc, h1, h2]
      · simp [hsc, h1, h2, hne]
    | some u1 =>
      by_cases hsc : task_completeness_score t2 > task_completeness_score t1
      · simp [hsc, h1, h2]
      · simp [hsc, h1, h2, hne]
  | some u2 =>
    cases h1 : t1.updated_at with
    | none =>
      by_cases hsc : task_completeness_score t2 > task_completeness_score t1
      · simp [hsc, h1, h2]
      · simp [hsc, h1, h2, hne]
    | some u1 =>
      by_cases hgt : u2 > u1
      · simp [hgt, h1, h2]
      · by_cases hsc : task_completeness_score t2 > task_completeness_score t1
        · simp [hgt, hsc, h1, h2]
        · simp [hgt, hsc, h1, h2, hne]

/-- Witness for the amended C5 at the concrete pair. -/
theorem claim_C5_keep_selection_witness :
    (create_auto_merge_strategy newerTask richerTask).keep_task_id = richerTask.id :=
  (claim_C5_keep_selection newerTask richerTask (by decide)).1.mpr (Or.inr (by decide))

theorem find?_of_any_false {α : Type} (p : α → Bool) (l : List α)
    (h : l.any p = false) : l.find? p = none := by
  rw [List.find?_eq_none]
  intro x hx hp
  have h2 : l.any p = true := List.any_eq_true.mpr ⟨x, hx, hp⟩
  rw [h] at h2
  exact absurd h2 (by simp)

theorem diskGet_diskPut (d : List ((TaskStatus × String) × Task))
    (k : TaskStatus × String) (v : Task) :
    diskGet (diskPut d k v) k = some v := by
  unfold diskGet diskPut
  by_cases h : d.any (fun e => decide (e.1 = k)) = true
  · rw [if_pos h]
    induction d with
    | nil => simp at h
    | cons a as ih =>
      by_cases ha : a.1 = k
      · rw [List.map_cons, if_pos ha]
        rw [List.find?_cons_of_pos _ (by simp)]
        rfl
      · rw [List.map_cons, if_neg ha]
        rw [List.find?_cons_of_neg _ (by simp [ha])]
        apply ih
        simpa [List.any_cons, ha] using h
  · rw [if_neg h]
    have h0 : d.any (fun e => decide (e.1 = k)) = false := by
      cases hd : d.any (fun e => decide (e.1 = k))
      · rfl
      · exact absurd hd h
    have h' : d.find? (fun e => decide (e.1 = k)) = none :=
      find?_of_any_false _ _ h0
    rw [List.find?_append, h']
    simp [List.find?]

theorem save_task_disk_true (m : Manager) (t : Task) (now : Nat) :
    ((save_task m t now true).2).disk
      = diskPut m.disk (t.status, t.id) (savedForm t now) := by
  by_cases hany : (m.tasks.any fun u => decide (u.id = (savedForm t now).id)) = true
  · simp only [save_task, hany, if_true,
      find?_replaceById_eq m.tasks (savedForm t now) hany]
    simp [savedForm]
  · have hany' : (m.tasks.any fun u => decide (u.id = (savedForm t now).id)) = false := by
      simpa using hany
    have hf : m.tasks.find? (fun u => decide (u.id = (savedForm t now).id)) = none :=
      find?_of_any_false _ _ hany'
    simp only [save_task, hany', Bool.false_eq_true, if_false, hf]
    simp [savedForm]

/-- C7 counterexample: a record saved with a future created_at (100, saved at
time 10) reloads with created_at clamped to the load time, so the reloaded
record differs from the saved one well beyond serialization precision. -/
theorem claim_C7_counterexample :
    (savedForm futureTask 10).created_at = some 100
    ∧ (task_from_dict_normalize (savedForm futureTask 10) 10).created_at = some 10
    ∧ task_from_dict_normalize (savedForm futureTask 10) 10 ≠ savedForm futureTask 10 := by
  decide

/-- C7 amended: provided the record's created_at is not in the future at save
time and the reload happens no earlier than the save, saving writes exactly
`savedForm t now_s` to the record's disk slot and reloading that file parses
back the very same record — ids, status, priority, dependencies and
timestamps exactly equal. -/
theorem claim_C7_round_trip :
    ∀ (m : Manager) (t : Task) (now_s now_l : Nat),
      (∀ c, t.created_at = some c → c ≤ now_s) →
      now_s ≤ now_l →
      diskGet ((save_task m t now_s true).2).disk (t.status, t.id)
        = some (savedForm t now_s)
      ∧ task_from_dict_normalize (savedForm t now_s) now_l = savedForm t now_s := by
  intro m t now_s now_l hcreated hle
  constructor
  · rw [save_task_disk_true]
    exact diskGet_diskPut _ _ _
  · have hcle : t.created_at.getD now_s ≤ now_s := by
      cases hca : t.created_at with
      | none => simp
      | some c => simpa using hcreated c hca
    unfold task_from_dict_normalize
    dsimp only [savedForm]
    simp only [Option.getD_some]
    rw [if_neg (show ¬ (t.created_at.getD now_s > now_l) by omega),
      if_neg (show ¬ (now_s > now_l) by omega),
      if_neg (show ¬ (now_s < t.created_at.getD now_s) by omega)]

/-- Witness for the amended C7 at a concrete record and clock values. -/
theorem claim_C7_round_trip_witness :
    diskGet ((save_task soloManager (mkTask "w" .todo []) 5 true).2).disk (.todo, "w")
      = some (savedForm (mkTask "w" .todo []) 5)
    ∧ task_from_dict_normalize (savedForm (mkTask "w" .todo []) 5) 9
        = savedForm (mkTask "w" .todo []) 5 :=
  claim_C7_round_trip soloManager (mkTask "w" .todo []) 5 9
    (by intro c hc; simp [mkTask] at hc; omega) (by omega)

theorem mem_ite_singleton {c : Prop} [Decidable c] {e x : ValidationError}
    (h : e ∈ (if c then [x] else ([] : List ValidationError))) : c ∧ e = x := by
  by_cases hc : c
  · rw [if_pos hc] at h
    exact ⟨hc, by simpa using h⟩
  · rw [if_neg hc] at h
    simp at h

theorem fold_max_mem (rest : List (String × Nat)) (p : String × Nat) :
    (rest.foldl (fun best q => if q.2 > best.2 then q else best) p) ∈ p :: rest := by
  induction rest generalizing p with
  | nil => simp
  | cons q rest ih =>
    rw [List.foldl_cons]
    have h := ih (if q.2 > p.2 then q else p)
    rcases List.mem_cons.mp h with h1 | h1
    · rw [h1]
      by_cases hq : q.2 > p.2
      · rw [if_pos hq]; simp
      · rw [if_neg hq]; simp
    · exact List.mem_cons.mpr (Or.inr (List.mem_cons.mpr (Or.inr h1)))

theorem agent_scores_fst_mem (text : String) (p : String × Nat)
    (h : p ∈ agent_scores text) : p.1 ∈ AGENT_CAPABILITIES.map (fun e => e.1) := by
  unfold agent_scores at h
  obtain ⟨e, he, heq⟩ := List.mem_filterMap.mp h
  by_cases hs : keyword_score e.2 text > 0
  · rw [if_pos hs] at heq
    have : p.1 = e.1 := by
      cases heq; rfl
    rw [this]
    exact List.mem_map.mpr ⟨e, he, rfl⟩
  · rw [if_neg hs] at heq
    simp at heq

theorem suggest_some_nonempty (a : String) (t : Task) :
    ∃ s, suggest_agent_migration a t = some s ∧ strTruthy s = true := by
  unfold suggest_agent_migration
  cases hm : alookup agent_migration_map a with
  | some v =>
    refine ⟨v, rfl, ?_⟩
    unfold alookup at hm
    obtain ⟨e, hfe, hev⟩ := Option.map_eq_some'.mp hm
    have hmem := List.mem_of_find?_eq_some hfe
    have hall : ∀ e ∈ agent_migration_map, strTruthy e.2 = true := by decide
    rw [← hev]
    exact hall e hmem
  | none =>
    cases hs : max_by_score (agent_scores (taskText t)) with
    | none => exact ⟨"DEVELOPER", rfl, by decide⟩
    | some agent =>
      refine ⟨agent, rfl, ?_⟩
      unfold max_by_score at hs
      cases hsc : agent_scores (taskText t) with
      | nil => rw [hsc] at hs; simp at hs
      | cons p rest =>
        rw [hsc] at hs
        simp only [Option.some.injEq] at hs
        have hmem := fold_max_mem rest p
        rw [← hsc] at hmem
        have hfst : agent ∈ (agent_scores (taskText t)).map (fun q => q.1) := by
          rw [← hs]
          exact List.mem_map.mpr ⟨_, by rw [hsc]; exact (by rw [hsc] at hmem; exact hmem), rfl⟩
        obtain ⟨q, hq, hqa⟩ := List.mem_map.mp hfst
        have hkeys := agent_scores_fst_mem (taskText t) q hq
        have hall : ∀ k ∈ AGENT_CAPABILITIES.map (fun e => e.1), strTruthy k = true := by
          decide
        rw [← hqa]
        exact hall q.1 hkeys

theorem required_no_agent (t : Task) (ha : strTruthy t.agent = true) :
    ∀ e ∈ validate_required_fields t, e.field ≠ "agent" := by
  intro e he hagent
  unfold validate_required_fields at he
  obtain ⟨f, hf, hef⟩ := List.mem_map.mp he
  have hfield : f = "agent" := by rw [← hef] at hagent; exact hagent
  subst hfield
  have hmiss := (List.mem_filter.mp hf).2
  have : requiredFieldMissing t "agent" = false := by
    show (¬ strTruthy t.agent : Bool) = false
    rw [ha]
    rfl
  rw [this] at hmiss
  exact absurd hmiss (by simp)

theorem formats_no_agent (t : Task) :
    ∀ e ∈ validate_field_formats t, e.field ≠ "agent" := by
  intro e he
  unfold validate_field_formats at he
  rcases List.mem_append.mp he with h | h
  · rcases List.mem_append.mp h with h | h
    · rcases List.mem_append.mp h with h | h
      · rcases List.mem_append.mp h with h | h
        · rcases (mem_ite_singleton h).2 with rfl; simp
        · rcases (mem_ite_singleton h).2 with rfl; simp
      · rcases (mem_ite_singleton h).2 with rfl; simp
    · rcases (mem_ite_singleton h).2 with rfl; simp
  · by_cases ht : t.tags ≠ []
    · rw [if_pos ht] at h
      rcases List.mem_append.mp h with h | h
      · rcases (mem_ite_singleton h).2 with rfl; simp
      · obtain ⟨tag, htag, hef⟩ := List.mem_map.mp h
        rw [← hef]
        simp
    · rw [if_neg ht] at h
      simp at h

theorem business_no_agent (t : Task) :
    ∀ e ∈ validate_business_rules t, e.field ≠ "agent" := by
  intro e he
  unfold validate_business_rules at he
  rcases List.mem_append.mp he with h | h
  · rcases List.mem_append.mp h with h | h
    · rcases List.mem_append.mp h with h | h
      · rcases (mem_ite_singleton h).2 with rfl; simp
      · rcases (mem_ite_singleton h).2 with rfl; simp
    · rcases (mem_ite_singleton h).2 with rfl; simp
  · rcases (mem_ite_singleton h).2 with rfl; simp

theorem dates_no_agent (t : Task) (now : Nat) :
    ∀ e ∈ validate_dates t now, e.field ≠ "agent" := by
  intro e he
  unfold validate_dates at he
  rcases List.mem_append.mp he with h | h
  · rcases List.mem_append.mp h with h | h
    · cases hca : t.created_at with
      | none => rw [hca] at h; simp at h
      | some c =>
        rw [hca] at h
        dsimp only at h
        rcases (mem_ite_singleton h).2 with rfl; simp
    · cases hca : t.created_at with
      | none =>
        rw [hca] at h
        cases t.updated_at <;> simp at h
      | some c =>
        rw [hca] at h
        cases hua : t.updated_at with
        | none => rw [hua] at h; simp at h
        | some u =>
          rw [hua] at h
          dsimp only at h
          rcases (mem_ite_singleton h).2 with rfl; simp
  · cases hdd : t.due_date with
    | none => rw [hdd] at h; simp at h
    | some d =>
      rw [hdd] at h
      dsimp only at h
      rcases List.mem_append.mp h with h | h
      · rcases (mem_ite_singleton h).2 with rfl; simp
      · rcases (mem_ite_singleton h).2 with rfl; simp

theorem deps_no_agent (t : Task) :
    ∀ e ∈ validate_task_dependencies t, e.field ≠ "agent" := by
  intro e he
  unfold validate_task_dependencies at he
  by_cases hd : t.dependencies = []
  · rw [if_pos hd] at he
    simp at he
  · rw [if_neg hd] at he
    rcases List.mem_append.mp he with h | h
    · rcases List.mem_append.mp h with h | h
      · rcases (mem_ite_singleton h).2 with rfl; simp
      · rcases (mem_ite_singleton h).2 with rfl; simp
    · obtain ⟨d, hdm, hef⟩ := List.mem_map.mp h
      rw [← hef]
      simp

theorem agent_unknown_shape (t : Task) (ha : strTruthy t.agent = true)
    (hu : alookup AGENT_CAPABILITIES t.agent = none) :
    ∃ msg, validate_agent_assignment t
      = [{ field := "agent", message := msg, severity := "warning",
           task_id := some t.id }] := by
  unfold validate_agent_assignment
  rw [hu]
  obtain ⟨sv, hsv, hsn⟩ := suggest_some_nonempty t.agent t
  rw [hsv]
  dsimp only
  rw [if_pos ⟨ha, rfl⟩, if_pos hsn]
  exact ⟨"Unknown agent \x27" ++ t.agent ++ "\x27. Suggested migration: \x27" ++ sv ++ "\x27 (auto-fixable)", by simp⟩

/-- C10: a non-empty agent string outside the capability registry always gets
a non-empty migration suggestion (falling back to DEVELOPER), so single-task
validation classifies the unknown agent as a warning on the agent field and
never returns an agent-field error. -/
theorem claim_C10_unknown_agent_never_error :
    ∀ (t : Task) (now : Nat),
      strTruthy t.agent = true →
      alookup AGENT_CAPABILITIES t.agent = none →
      (∃ s, suggest_agent_migration t.agent t = some s ∧ s ≠ "")
      ∧ (∃ e ∈ (validate_task t now).1, e.field = "agent"
          ∧ e.severity = "warning")
      ∧ (∀ e ∈ (validate_task t now).2, e.field ≠ "agent") := by
  intro t now ha hu
  obtain ⟨msg, hshape⟩ := agent_unknown_shape t ha hu
  refine ⟨?_, ?_, ?_⟩
  · obtain ⟨s, hs, hsn⟩ := suggest_some_nonempty t.agent t
    exact ⟨s, hs, by simpa [strTruthy] using hsn⟩
  · refine ⟨{ field := "agent", message := msg, severity := "warning", task_id := some t.id }, ?_, rfl, rfl⟩
    unfold validate_task
    apply List.mem_filter.mpr
    constructor
    · apply List.mem_append.mpr
      left
      apply List.mem_append.mpr
      left
      apply List.mem_append.mpr
      right
      rw [hshape]
      simp
    · simp
  · intro e he hagent
    unfold validate_task at he
    have hmem := (List.mem_filter.mp he).1
    have hsev := (List.mem_filter.mp he).2
    simp only [decide_eq_true_eq] at hsev
    rcases List.mem_append.mp hmem with h | h
    · rcases List.mem_append.mp h with h | h
      · rcases List.mem_append.mp h with h | h
        · rcases List.mem_append.mp h with h | h
          · rcases List.mem_append.mp h with h | h
            · exact required_no_agent t ha e h hagent
            · exact formats_no_agent t e h hagent
          · exact business_no_agent t e h hagent
        · rw [hshape] at h
          have : e = { field := "agent", message := msg, severity := "warning", task_id := some t.id } := by simpa using h
          rw [this] at hsev
          simp at hsev
      · exact dates_no_agent t now e h hagent
    · exact deps_no_agent t e h hagent

/-- Witness for C10 at a concrete record with an unknown agent. -/
theorem claim_C10_unknown_agent_witness :
    (∃ s, suggest_agent_migration strayAgentTask.agent strayAgentTask = some s ∧ s ≠ "")
    ∧ (∃ e ∈ (validate_task strayAgentTask 50).1, e.field = "agent"
        ∧ e.severity = "warning")
    ∧ (∀ e ∈ (validate_task strayAgentTask 50).2, e.field ≠ "agent") :=
  claim_C10_unknown_agent_never_error strayAgentTask 50 (by decide) (by decide)

theorem mem_dedupFirstAux (l : List String) : ∀ (seen : List String) (x : String),
    x ∈ dedupFirstAux seen l ↔ (x ∈ l ∧ x ∉ seen) := by
  induction l with
  | nil => intro seen x; simp [dedupFirstAux]
  | cons a l ih =>
    intro seen x
    unfold dedupFirstAux
    by_cases ha : a ∈ seen
    · rw [if_pos ha, ih]
      constructor
      · rintro ⟨hx, hs⟩
        exact ⟨List.mem_cons.mpr (Or.inr hx), hs⟩
      · rintro ⟨hx, hs⟩
        rcases List.mem_cons.mp hx with rfl | hx
        · exact absurd ha hs
        · exact ⟨hx, hs⟩
    · rw [if_neg ha]
      constructor
      · intro hx
        rcases List.mem_cons.mp hx with rfl | hx
        · exact ⟨List.mem_cons.mpr (Or.inl rfl), ha⟩
        · rw [ih] at hx
          obtain ⟨h1, h2⟩ := hx
          exact ⟨List.mem_cons.mpr (Or.inr h1),
            fun hc => h2 (List.mem_cons.mpr (Or.inr hc))⟩
      · rintro ⟨hx, hs⟩
        rcases List.mem_cons.mp hx with rfl | hx
        · exact List.mem_cons.mpr (Or.inl rfl)
        · by_cases hxa : x = a
          · subst hxa; exact List.mem_cons.mpr (Or.inl rfl)
          · refine List.mem_cons.mpr (Or.inr ?_)
            rw [ih]
            refine ⟨hx, ?_⟩
            intro hc
            rcases List.mem_cons.mp hc with h | h
            · exact hxa h
            · exact hs h

theorem mem_dedupFirst (l : List String) (x : String) :
    x ∈ dedupFirst l ↔ x ∈ l := by
  unfold dedupFirst
  rw [mem_dedupFirstAux]
  simp

theorem nodup_dedupFirstAux (l : List String) : ∀ seen, (dedupFirstAux seen l).Nodup := by
  induction l with
  | nil => intro seen; simp [dedupFirstAux]
  | cons a l ih =>
    intro seen
    unfold dedupFirstAux
    by_cases ha : a ∈ seen
    · rw [if_pos ha]; exact ih seen
    · rw [if_neg ha]
      refine List.nodup_cons.mpr ⟨?_, ih (a :: seen)⟩
      intro hc
      exact ((mem_dedupFirstAux l (a :: seen) a).mp hc).2 (List.mem_cons.mpr (Or.inl rfl))

theorem nodup_dedupFirst (l : List String) : (dedupFirst l).Nodup :=
  nodup_dedupFirstAux l []

theorem urStep_id (X Y : String) (now : Nat) (r : Task) :
    (urStep X Y now r).id = r.id := by
  unfold urStep
  split <;> rfl

theorem urStep_of_not_mem (X Y : String) (now : Nat) (r : Task)
    (hX : X ∉ r.dependencies) : urStep X Y now r = r := by
  unfold urStep
  rw [if_neg hX]

theorem urStep_no_old (X Y : String) (now : Nat) (r : Task) (hXY : X ≠ Y) :
    X ∉ (urStep X Y now r).dependencies := by
  unfold urStep
  by_cases hX : X ∈ r.dependencies
  · rw [if_pos hX]
    intro hc
    rw [savedForm_deps] at hc
    dsimp only at hc
    rw [mem_dedupFirst] at hc
    obtain ⟨d, hd, heq⟩ := List.mem_map.mp hc
    by_cases hdX : d = X
    · rw [if_pos hdX] at heq
      exact hXY heq.symm
    · rw [if_neg hdX] at heq
      exact hdX heq
  · rw [if_neg hX]
    exact hX

theorem urStep_count_one (X Y : String) (now : Nat) (r : Task)
    (hX : X ∈ r.dependencies) :
    ((urStep X Y now r).dependencies).count Y = 1 := by
  unfold urStep
  rw [if_pos hX]
  rw [savedForm_deps]
  dsimp only
  apply List.count_eq_one_of_mem (nodup_dedupFirst _)
  rw [mem_dedupFirst]
  exact List.mem_map.mpr ⟨X, hX, by rw [if_pos rfl]⟩

theorem find?_map_idpres (f : Task → Task) (hf : ∀ r, (f r).id = r.id)
    (base : List Task) (x : String) :
    (base.map f).find? (fun u => decide (u.id = x))
      = (base.find? (fun u => decide (u.id = x))).map f := by
  induction base with
  | nil => rfl
  | cons a l ih =>
    rw [List.map_cons]
    by_cases ha : a.id = x
    · rw [List.find?_cons_of_pos _ (by simp [hf, ha]),
        List.find?_cons_of_pos _ (by simp [ha])]
      rfl
    · rw [List.find?_cons_of_neg _ (by simp [hf, ha]),
        List.find?_cons_of_neg _ (by simp [ha])]
      exact ih

theorem mem_id_unique (base : List Task)
    (hnd : (base.map (fun t => t.id)).Nodup) (r r' : Task)
    (hr : r ∈ base) (hr' : r' ∈ base) (h : r.id = r'.id) : r = r' := by
  induction base with
  | nil => simp at hr
  | cons a l ih =>
    rw [List.map_cons, List.nodup_cons] at hnd
    rcases List.mem_cons.mp hr with rfl | hr1
    · rcases List.mem_cons.mp hr' with rfl | hr2
      · rfl
      · exfalso
        apply hnd.1
        rw [h]
        exact List.mem_map.mpr ⟨r', hr2, rfl⟩
    · rcases List.mem_cons.mp hr' with rfl | hr2
      · exfalso
        apply hnd.1
        rw [← h]
        exact List.mem_map.mpr ⟨r, hr1, rfl⟩
      · exact ih hnd.2 hr1 hr2

theorem ids_filter_ne (ts : List Task) (x : String) :
    ((ts.filter (fun t => decide (t.id ≠ x))).map (fun t => t.id))
      = (ts.map (fun t => t.id)).filter (fun i => decide (i ≠ x)) := by
  induction ts with
  | nil => rfl
  | cons a l ih =>
    by_cases ha : a.id = x
    · rw [List.filter_cons, List.map_cons, List.filter_cons]
      simp only [ha, decide_not, decide_eq_true_eq]
      simpa [ha] using ih
    · rw [List.filter_cons, List.map_cons, List.filter_cons]
      simp only [decide_not]
      simpa [ha] using ih

theorem step_save_tasks (g : Manager) (t : Task) (now : Nat) (pOk : Bool)
    (hpres : g.tasks.any (fun u => decide (u.id = t.id)) = true) :
    ((save_task { g with tasks := replaceById g.tasks t } t now pOk).2).tasks
      = replaceById g.tasks (savedForm t now) := by
  rw [save_task_tasks]
  · exact replaceById_replaceById _ _ _ rfl
  · show (replaceById g.tasks t).any _ = true
    rw [any_id_replaceById]
    exact hpres

theorem ur_fold (X Y : String) (now : Nat) (pOk : Bool) :
    ∀ (rest : List String) (base : List Task) (g : Manager),
      (base.map (fun t => t.id)).Nodup →
      rest.Nodup →
      (∀ tid ∈ rest, tid ∈ base.map (fun t => t.id)) →
      g.tasks = base.map (fun r => if r.id ∈ rest then r else urStep X Y now r) →
      (rest.foldl (fun mm tid => update_references_step mm tid X Y now pOk) g).tasks
        = base.map (urStep X Y now) := by
  intro rest
  induction rest with
  | nil =>
    intro base g hnd hrnd hsub hmm
    simpa using hmm
  | cons tid rest ih =>
    intro base g hnd hrnd hsub hmm
    rw [List.foldl_cons]
    have htid : tid ∈ base.map (fun t => t.id) := hsub tid (List.mem_cons.mpr (Or.inl rfl))
    have hrest_nodup : rest.Nodup := (List.nodup_cons.mp hrnd).2
    have htid_not : tid ∉ rest := (List.nodup_cons.mp hrnd).1
    set g0 : Task → Task :=
      (fun r => if r.id ∈ tid :: rest then r else urStep X Y now r) with hg0
    have hg0id : ∀ r, (g0 r).id = r.id := by
      intro r
      rw [hg0]
      dsimp only
      split
      · rfl
      · exact urStep_id X Y now r
    obtain ⟨r0, hr0mem, hr0id⟩ : ∃ r0, r0 ∈ base ∧ r0.id = tid := by
      obtain ⟨r0, h1, h2⟩ := List.mem_map.mp htid
      exact ⟨r0, h1, h2⟩
    have hfind : base.find? (fun u => decide (u.id = tid)) = some r0 := by
      cases hf : base.find? (fun u => decide (u.id = tid)) with
      | none =>
        rw [List.find?_eq_none] at hf
        exact absurd (by simpa using hr0id) (hf r0 hr0mem)
      | some w =>
        have hw1 := List.mem_of_find?_eq_some hf
        have hw2 : w.id = tid := by simpa using List.find?_some hf
        rw [mem_id_unique base hnd w r0 hw1 hr0mem (by rw [hw2, hr0id])]
    have hget : getTask g tid = some r0 := by
      unfold getTask
      rw [hmm, find?_map_idpres g0 hg0id, hfind]
      have hfix : g0 r0 = r0 := by
        rw [hg0]
        dsimp only
        rw [if_pos (by rw [hr0id]; exact List.mem_cons.mpr (Or.inl rfl))]
      rw [Option.map_some', hfix]
    have huniq : ∀ r ∈ base, r.id = tid → r = r0 := by
      intro r hr hid
      exact mem_id_unique base hnd r r0 hr hr0mem (by rw [hid, hr0id])
    have happly : (update_references_step g tid X Y now pOk).tasks
        = base.map (fun r => if r.id ∈ rest then r else urStep X Y now r) := by
      unfold update_references_step
      rw [hget]
      dsimp only
      by_cases hX : X ∈ r0.dependencies
      · rw [if_pos hX]
        have hpres : g.tasks.any (fun u => decide (u.id =
            ({ r0 with dependencies := dedupFirst (r0.dependencies.map
              (fun dep => if dep = X then Y else dep)) } : Task).id)) = true := by
          rw [hmm]
          apply List.any_eq_true.mpr
          refine ⟨g0 r0, List.mem_map.mpr ⟨r0, hr0mem, rfl⟩, ?_⟩
          simp [hg0id]
        rw [step_save_tasks g ({ r0 with dependencies := dedupFirst (r0.dependencies.map
          (fun dep => if dep = X then Y else dep)) }) now pOk hpres]
        have hstep : savedForm ({ r0 with dependencies := dedupFirst (r0.dependencies.map
            (fun dep => if dep = X then Y else dep)) } : Task) now = urStep X Y now r0 := by
          unfold urStep
          rw [if_pos hX]
        rw [hmm]
        unfold replaceById
        rw [List.map_map]
        apply List.map_congr_left
        intro r hr
        simp only [Function.comp_apply]
        have hsid : (savedForm ({ r0 with dependencies := dedupFirst (r0.dependencies.map
            (fun dep => if dep = X then Y else dep)) } : Task) now).id = tid := by
          rw [savedForm_id]
          exact hr0id
        by_cases hrid : r.id = tid
        · have hre : r = r0 := huniq r hr hrid
          rw [if_pos (by rw [hg0id, hrid, hsid]), hstep, hre]
          rw [if_neg (by rw [hr0id]; exact htid_not)]
        · rw [if_neg (by rw [hg0id, hsid]; exact hrid)]
          rw [hg0]
          dsimp only
          by_cases hmem : r.id ∈ rest
          · rw [if_pos (List.mem_cons.mpr (Or.inr hmem)), if_pos hmem]
          · rw [if_neg (by simp [List.mem_cons, hrid, hmem]), if_neg hmem]
      · rw [if_neg hX]
        rw [hmm]
        apply List.map_congr_left
        intro r hr
        rw [hg0]
        dsimp only
        by_cases hrid : r.id = tid
        · have hre : r = r0 := huniq r hr hrid
          rw [if_pos (by rw [hrid]; exact List.mem_cons.mpr (Or.inl rfl))]
          rw [if_neg (by rw [hrid]; exact htid_not)]
          rw [hre, urStep_of_not_mem X Y now r0 hX]
        · by_cases hmem : r.id ∈ rest
          · rw [if_pos (List.mem_cons.mpr (Or.inr hmem)), if_pos hmem]
          · rw [if_neg (by simp [List.mem_cons, hrid, hmem]), if_neg hmem]
    exact ih base (update_references_step g tid X Y now pOk) hnd hrest_nodup
      (fun x hx => hsub x (List.mem_cons.mpr (Or.inr hx))) happly

theorem update_references_tasks (m : Manager) (X Y : String) (now : Nat) (pOk : Bool)
    (hnd : (m.tasks.map (fun t => t.id)).Nodup) :
    (update_references m X Y now pOk).tasks = m.tasks.map (urStep X Y now) := by
  unfold update_references
  apply ur_fold X Y now pOk (m.tasks.map (fun t => t.id)) m.tasks m hnd hnd
    (fun x hx => hx)
  have hid : m.tasks.map (fun r =>
      if r.id ∈ m.tasks.map (fun t => t.id) then r else urStep X Y now r)
      = m.tasks.map (fun r => r) :=
    List.map_congr_left (fun r hr => by rw [if_pos (List.mem_map.mpr ⟨r, hr, rfl⟩)])
  rw [hid, List.map_id']

theorem setMField_id (d : Task) (f : MField) (src : Task) :
    (setMField d f src).id = d.id := by
  cases f <;> rfl

theorem applyFieldSources_id (fs : List (MField × String)) (rm : Task) :
    ∀ acc : Task, (applyFieldSources fs rm acc).id = acc.id := by
  induction fs with
  | nil => intro acc; rfl
  | cons f fs ih =>
    intro acc
    unfold applyFieldSources at ih ⊢
    rw [List.foldl_cons, ih]
    exact setMField_id _ _ _

theorem mergeNotesStep_id (strategy : MergeStrategy) (rm : Task) (now : Nat)
    (k : Task) : (mergeNotesStep strategy rm now k).id = k.id := by
  unfold mergeNotesStep
  split
  · dsimp only
    split <;> rfl
  · rfl

theorem mergeDepsStep_id (strategy : MergeStrategy) (rm : Task) (k : Task) :
    (mergeDepsStep strategy rm k).id = k.id := by
  unfold mergeDepsStep
  dsimp only
  split <;> rfl

theorem mergeTagsStep_id (strategy : MergeStrategy) (rm : Task) (k : Task) :
    (mergeTagsStep strategy rm k).id = k.id := by
  unfold mergeTagsStep
  split <;> rfl

theorem mergedKeepRecord_id (strategy : MergeStrategy) (k rm : Task) (now : Nat) :
    (mergedKeepRecord strategy k rm now).id = k.id := by
  unfold mergedKeepRecord
  dsimp only
  rw [mergeTagsStep_id, mergeDepsStep_id, mergeNotesStep_id]
  exact applyFieldSources_id _ _ _

/-- C4 counterexample: merging x into y (the strategy the automatic selector
produces for the pair) succeeds, yet y — which had x as a dependency before
the merge — ends with dependency list ["z"], containing the kept id y zero
times, not exactly once: the union-merge strips both merged ids instead of
rewriting the kept record's reference. -/
theorem claim_C4_counterexample :
    (execute_merge mergeDemoManager mergeDemoStrategy 9 true).1 = true
    ∧ mergeDemoStrategy.keep_task_id = "y"
    ∧ mergeDemoStrategy.remove_task_id = "x"
    ∧ "x" ∈ (mkTask "y" .todo ["x"]).dependencies
    ∧ ((execute_merge mergeDemoManager mergeDemoStrategy 9 true).2.tasks.map
        (fun t => (t.id, t.dependencies))) = [("y", ["z"])]
    ∧ (["z"] : List String).count "y" = 0 := by
  decide

/-- C4 amended: after a successful merge of X into Y (distinct ids, unique
ids in the store), no remaining record lists X as a dependency, and every
record other than the two merged ones that had X as a dependency before the
merge lists Y exactly once afterwards.  The kept record itself is the
exception the counterexample exhibits: its own reference to X is dropped by
the self-reference stripping of the dependency union rather than rewritten
to Y. -/
theorem claim_C4_merge_reference_integrity :
    ∀ (m : Manager) (strat : MergeStrategy) (now : Nat) (pOk : Bool) (m' : Manager),
      (m.tasks.map (fun t => t.id)).Nodup →
      strat.remove_task_id ≠ strat.keep_task_id →
      execute_merge m strat now pOk = (true, m') →
      (∀ t' ∈ m'.tasks, strat.remove_task_id ∉ t'.dependencies)
      ∧ (∀ t ∈ m.tasks, t.id ≠ strat.keep_task_id → t.id ≠ strat.remove_task_id →
          strat.remove_task_id ∈ t.dependencies →
          ∃ t' ∈ m'.tasks, t'.id = t.id
            ∧ t'.dependencies.count strat.keep_task_id = 1) := by
  intro m strat now pOk m' hnd hXY hexec
  unfold execute_merge at hexec
  cases hk : getTask m strat.keep_task_id with
  | none =>
    rw [hk] at hexec
    cases hr : getTask m strat.remove_task_id with
    | none => rw [hr] at hexec; simp at hexec
    | some w => rw [hr] at hexec; simp at hexec
  | some keep0 =>
    rw [hk] at hexec
    cases hr : getTask m strat.remove_task_id with
    | none => rw [hr] at hexec; simp at hexec
    | some remove_task =>
      rw [hr] at hexec
      dsimp only at hexec
      rw [save_task_fst] at hexec
      cases pOk with
      | false => simp at hexec
      | true =>
        rw [if_pos rfl] at hexec
        have hm' : m' = update_references
            { tasks := (((save_task
                { m with tasks := replaceById m.tasks (mergedKeepRecord strat keep0 remove_task now) }
                (mergedKeepRecord strat keep0 remove_task now) now true).2).tasks.filter
                  (fun t => decide (t.id ≠ remove_task.id))),
              graph := (((save_task
                { m with tasks := replaceById m.tasks (mergedKeepRecord strat keep0 remove_task now) }
                (mergedKeepRecord strat keep0 remove_task now) now true).2).graph.filter
                  (fun e => decide (e.1 ≠ remove_task.id))),
              disk := diskErase ((save_task
                { m with tasks := replaceById m.tasks (mergedKeepRecord strat keep0 remove_task now) }
                (mergedKeepRecord strat keep0 remove_task now) now true).2).disk
                (remove_task.status, remove_task.id) }
            remove_task.id (mergedKeepRecord strat keep0 remove_task now).id now true := by
          have := congrArg Prod.snd hexec
          exact this.symm
        have hkid : keep0.id = strat.keep_task_id := (getTask_mem hk).2
        have hrid : remove_task.id = strat.remove_task_id := (getTask_mem hr).2
        have hkmid : (mergedKeepRecord strat keep0 remove_task now).id
            = strat.keep_task_id := by
          rw [mergedKeepRecord_id]
          exact hkid
        have hsave : ((save_task
            { m with tasks := replaceById m.tasks (mergedKeepRecord strat keep0 remove_task now) }
            (mergedKeepRecord strat keep0 remove_task now) now true).2).tasks
            = replaceById m.tasks (savedForm (mergedKeepRecord strat keep0 remove_task now) now) := by
          apply step_save_tasks
          rw [hkmid]
          exact any_id_of_getTask hk
        set km := mergedKeepRecord strat keep0 remove_task now with hkm
        set kmS := savedForm km now with hkms
        have hkmsid : kmS.id = strat.keep_task_id := by
          rw [hkms, savedForm_id, hkmid]
        -- the store the reference rewrite walks
        have hm5tasks : ∀ (g : Manager), g = update_references
            { tasks := (((save_task { m with tasks := replaceById m.tasks km } km now true).2).tasks.filter
                (fun t => decide (t.id ≠ remove_task.id))),
              graph := (((save_task { m with tasks := replaceById m.tasks km } km now true).2).graph.filter
                (fun e => decide (e.1 ≠ remove_task.id))),
              disk := diskErase ((save_task { m with tasks := replaceById m.tasks km } km now true).2).disk
                (remove_task.status, remove_task.id) }
            remove_task.id km.id now true →
            g.tasks = ((replaceById m.tasks kmS).filter
              (fun t => decide (t.id ≠ remove_task.id))).map
                (urStep remove_task.id km.id now) := by
          intro g hg
          rw [hg]
          rw [update_references_tasks]
          · dsimp only
            rw [hsave]
          · dsimp only
            rw [hsave, ids_filter_ne, ids_replaceById]
            exact (hnd.filter _)
        have hm'tasks : m'.tasks = ((replaceById m.tasks kmS).filter
            (fun t => decide (t.id ≠ remove_task.id))).map
              (urStep remove_task.id km.id now) := hm5tasks m' hm'
        constructor
        · intro t' ht'
          rw [hm'tasks] at ht'
          obtain ⟨r, hrmem, hre⟩ := List.mem_map.mp ht'
          rw [← hre, ← hrid]
          apply urStep_no_old
          rw [hrid, hkmid]
          exact hXY
        · intro t htm htY htX htdep
          have htm5 : t ∈ (replaceById m.tasks kmS).filter
              (fun t => decide (t.id ≠ remove_task.id)) := by
            apply List.mem_filter.mpr
            constructor
            · apply List.mem_map.mpr
              refine ⟨t, htm, ?_⟩
              rw [if_neg]
              rw [hkmsid]
              exact htY
            · simp [hrid, htX]
          refine ⟨urStep remove_task.id km.id now t, ?_, ?_, ?_⟩
          · rw [hm'tasks]
            exact List.mem_map.mpr ⟨t, htm5, rfl⟩
          · exact urStep_id _ _ _ _
          · rw [← hkmid]
            apply urStep_count_one
            rw [hrid]
            exact htdep

/-- Witness for the amended C4: merging x into y in the three-task store
leaves no reference to x, and w (which depended on x) depends on y exactly
once. -/
theorem claim_C4_merge_reference_witness :
    (∀ t' ∈ ((execute_merge mergeDemoManager2 mergeDemoStrategy 9 true).2).tasks,
      mergeDemoStrategy.remove_task_id ∉ t'.dependencies)
    ∧ (∀ t ∈ mergeDemoManager2.tasks,
        t.id ≠ mergeDemoStrategy.keep_task_id →
        t.id ≠ mergeDemoStrategy.remove_task_id →
        mergeDemoStrategy.remove_task_id ∈ t.dependencies →
        ∃ t' ∈ ((execute_merge mergeDemoManager2 mergeDemoStrategy 9 true).2).tasks,
          t'.id = t.id
          ∧ t'.dependencies.count mergeDemoStrategy.keep_task_id = 1) :=
  claim_C4_merge_reference_integrity mergeDemoManager2 mergeDemoStrategy 9 true
    ((execute_merge mergeDemoManager2 mergeDemoStrategy 9 true).2)
    (by decide) (by decide) (by decide)

theorem forall₂_mem_left {R : Task → Task → Prop} :
    ∀ {ts us : List Task}, List.Forall₂ R ts us → ∀ {a}, a ∈ ts → ∃ b ∈ us, R a b := by
  intro ts us h
  induction h with
  | nil => intro a ha; simp at ha
  | cons hab htail ih =>
    intro a ha
    rcases List.mem_cons.mp ha with rfl | ha
    · exact ⟨_, List.mem_cons.mpr (Or.inl rfl), hab⟩
    · obtain ⟨b, hb, hr⟩ := ih ha
      exact ⟨b, List.mem_cons.mpr (Or.inr hb), hr⟩

theorem forall₂_ids {ts us : List Task} (h : List.Forall₂ passRel ts us) :
    ts.map (fun t => t.id) = us.map (fun t => t.id) := by
  induction h with
  | nil => rfl
  | cons hab htail ih => rw [List.map_cons, List.map_cons, hab.1, ih]

theorem find?_forall₂ {ts us : List Task} (h : List.Forall₂ passRel ts us)
    (tid : String) :
    (ts.find? (fun t => decide (t.id = tid)) = none
      ∧ us.find? (fun t => decide (t.id = tid)) = none)
    ∨ (∃ u v, ts.find? (fun t => decide (t.id = tid)) = some u
        ∧ us.find? (fun t => decide (t.id = tid)) = some v ∧ passRel u v) := by
  induction h with
  | nil => left; exact ⟨rfl, rfl⟩
  | @cons a b ts' us' hab htail ih =>
    by_cases hid : a.id = tid
    · right
      have hbid : b.id = tid := by rw [← hab.1]; exact hid
      exact ⟨a, b, List.find?_cons_of_pos _ (by simp [hid]),
        List.find?_cons_of_pos _ (by simp [hbid]), hab⟩
    · have hbid : ¬ b.id = tid := by rw [← hab.1]; exact hid
      rw [List.find?_cons_of_neg _ (by simp [hid]),
        List.find?_cons_of_neg _ (by simp [hbid])]
      exact ih

theorem all_congr_mem {α : Type} (l : List α) (f g : α → Bool)
    (h : ∀ x ∈ l, f x = g x) : l.all f = l.all g := by
  induction l with
  | nil => rfl
  | cons a l ih =>
    rw [List.all_cons, List.all_cons, h a (List.mem_cons.mpr (Or.inl rfl)),
      ih (fun x hx => h x (List.mem_cons.mpr (Or.inr hx)))]

theorem sat_invariant (m mm : Manager)
    (hrel : List.Forall₂ passRel mm.tasks m.tasks) :
    ∀ tid, dependencies_satisfied mm tid = dependencies_satisfied m tid := by
  intro tid
  unfold dependencies_satisfied getTask
  rcases find?_forall₂ hrel tid with ⟨h1, h2⟩ | ⟨u, v, h1, h2, hr⟩
  · rw [h1, h2]
  · rw [h1, h2]
    dsimp only
    rw [hr.2.1]
    by_cases hd : v.dependencies = []
    · simp [hd]
    · rw [if_neg hd, if_neg hd]
      apply all_congr_mem
      intro dep hdep
      rcases find?_forall₂ hrel dep with ⟨g1, g2⟩ | ⟨d1, d2, g1, g2, gr⟩
      · rw [g1, g2]
      · rw [g1, g2]
        dsimp only
        rcases gr.2.2 with hst | ⟨hst1, hst2⟩
        · rw [hst]
        · rw [hst1, hst2]
          rfl

theorem forall₂_replaceById (t' : Task) : ∀ {ts us : List Task},
    List.Forall₂ passRel ts us →
    (∀ v ∈ us, v.id = t'.id → passRel t' v) →
    List.Forall₂ passRel (replaceById ts t') us := by
  intro ts us h hv
  induction h with
  | nil => exact List.Forall₂.nil
  | @cons a b ts' us' hab htail ih =>
    rw [replaceById_cons]
    refine List.Forall₂.cons ?_
      (ih (fun v hv2 hid => hv v (List.mem_cons.mpr (Or.inr hv2)) hid))
    by_cases hid : a.id = t'.id
    · rw [if_pos hid]
      exact hv b (List.mem_cons.mpr (Or.inl rfl)) (by rw [← hab.1, hid])
    · rw [if_neg hid]
      exact hab

theorem update_todo_shape (mm : Manager) (tid : String) (notes : Option String)
    (now : Nat) (pOk : Bool) :
    (update_task_status mm tid .todo notes now pOk).2 = mm
    ∨ ∃ u t', getTask mm tid = some u
        ∧ is_valid_status_transition u.status .todo = true
        ∧ t'.id = tid ∧ t'.status = .todo ∧ t'.dependencies = u.dependencies
        ∧ ((update_task_status mm tid .todo notes now pOk).2).tasks
            = replaceById mm.tasks t' := by
  rw [update_ne_complete mm tid .todo notes now pOk (by decide)]
  cases hg : getTask mm tid with
  | none =>
    left
    rw [core_of_none mm tid .todo notes now pOk hg]
  | some u =>
    by_cases hv : is_valid_status_transition u.status .todo = true
    · by_cases hsat : dependencies_satisfied mm tid = true
      · right
        refine ⟨u, savedForm (applyStatusChange u .todo notes now) now,
          rfl, hv, ?_, ?_, ?_, ?_⟩
        · rw [savedForm_id, applyStatusChange_id]
          exact (getTask_mem hg).2
        · rw [savedForm_status, applyStatusChange_status]
        · rw [savedForm_deps, applyStatusChange_deps]
        · exact core_fires_tasks mm tid .todo notes now pOk u hg hv (fun _ => hsat)
      · left
        have hsat' : dependencies_satisfied mm tid = false := by
          cases h2 : dependencies_satisfied mm tid
          · rfl
          · exact absurd h2 hsat
        rw [core_of_unsat mm tid notes now pOk u hg hv hsat']
    · left
      have hv' : is_valid_status_transition u.status .todo = false := by
        cases h2 : is_valid_status_transition u.status .todo
        · rfl
        · exact absurd h2 hv
      rw [core_of_invalid mm tid .todo notes now pOk u hg hv']

theorem getTask_todo_after (mm : Manager) (tid2 : String) (notes : Option String)
    (now : Nat) (pOk : Bool) (tid : String)
    (h : ∃ u, getTask mm tid = some u ∧ u.status = .todo) :
    ∃ u, getTask ((update_task_status mm tid2 .todo notes now pOk).2) tid = some u
      ∧ u.status = .todo := by
  rcases update_todo_shape mm tid2 notes now pOk with heq | ⟨u2, t', hg2, hv2, htid, hst, hdeps, htasks⟩
  · rw [heq]
    exact h
  · obtain ⟨u, hu, hus⟩ := h
    by_cases hx : tid = t'.id
    · refine ⟨t', ?_, hst⟩
      unfold getTask
      rw [htasks]
      subst hx
      exact find?_replaceById_eq _ _ (any_id_of_getTask hu)
    · refine ⟨u, ?_, hus⟩
      unfold getTask
      rw [htasks, find?_replaceById_ne _ _ _ hx]
      exact hu

theorem pass_iter_rel (m mm : Manager)
    (hnd : (m.tasks.map (fun t => t.id)).Nodup)
    (hrel : List.Forall₂ passRel mm.tasks m.tasks)
    (t : Task) (ht : t ∈ m.tasks) (hbl : t.status = .blocked)
    (notes : Option String) (now : Nat) (pOk : Bool) :
    List.Forall₂ passRel
      ((update_task_status mm t.id .todo notes now pOk).2).tasks m.tasks := by
  rcases update_todo_shape mm t.id notes now pOk with heq | ⟨u, t', hg, hv, htid, hst, hdeps, htasks⟩
  · rw [heq]
    exact hrel
  · rw [htasks]
    apply forall₂_replaceById t' hrel
    intro v hv2 hvid
    have hvt : v = t := by
      apply mem_id_unique m.tasks hnd v t hv2 ht
      rw [hvid, htid]
    subst hvt
    -- the record found on the mm side corresponds to v itself
    rcases find?_forall₂ hrel v.id with ⟨g1, g2⟩ | ⟨u1, v1, g1, g2, gr⟩
    · exact absurd hg (by unfold getTask; rw [g1]; simp)
    · have hu1 : u1 = u := by
        have : getTask mm v.id = some u1 := g1
        rw [this] at hg
        exact (Option.some.injEq _ _).mp hg.symm |>.symm
      have hv1mem := List.mem_of_find?_eq_some g2
      have hv1id : v1.id = v.id := by simpa using List.find?_some g2
      have hv1v : v1 = v := mem_id_unique m.tasks hnd v1 v hv1mem hv2 hv1id
      refine ⟨by rw [htid], ?_, Or.inr ⟨hst, hbl⟩⟩
      rw [hdeps, ← hu1]
      rw [gr.2.1, hv1v]

theorem find?_self_of_nodup (ts : List Task)
    (hnd : (ts.map (fun t => t.id)).Nodup) (t : Task) (ht : t ∈ ts) :
    ts.find? (fun u => decide (u.id = t.id)) = some t := by
  cases hf : ts.find? (fun u => decide (u.id = t.id)) with
  | none =>
    rw [List.find?_eq_none] at hf
    exact absurd (by simp) (hf t ht)
  | some w =>
    have hw1 := List.mem_of_find?_eq_some hf
    have hw2 : w.id = t.id := by simpa using List.find?_some hf
    rw [mem_id_unique ts hnd w t hw1 ht hw2]

theorem pass1_fold (m : Manager) (hnd : (m.tasks.map (fun t => t.id)).Nodup)
    (now : Nat) (pOk : Bool) :
    ∀ (S : List Task) (acc : List String) (mm : Manager)
      (res : List String × Manager),
      (∀ t ∈ S, t ∈ m.tasks ∧ t.status = .blocked) →
      List.Forall₂ passRel mm.tasks m.tasks →
      res = S.foldl (fun acc2 task =>
        if dependencies_satisfied acc2.2 task.id then
          let r := update_task_status acc2.2 task.id .todo
            (some "Auto-transitioned: dependencies satisfied") now pOk
          (if r.1 then acc2.1 ++ [task.id] else acc2.1, r.2)
        else acc2) (acc, mm) →
      List.Forall₂ passRel res.2.tasks m.tasks
      ∧ (∀ tid, (∃ u, getTask mm tid = some u ∧ u.status = .todo) →
          (∃ u, getTask res.2 tid = some u ∧ u.status = .todo))
      ∧ (∀ t ∈ S, dependencies_satisfied m t.id = false
          ∨ ∃ u, getTask res.2 t.id = some u ∧ u.status = .todo) := by
  intro S
  induction S with
  | nil =>
    intro acc mm res hS hrel hres
    rw [List.foldl_nil] at hres
    subst hres
    exact ⟨hrel, fun tid h => h, by intro t ht; simp at ht⟩
  | cons t S ih =>
    intro acc mm res hS hrel hres
    rw [List.foldl_cons] at hres
    have htm : t ∈ m.tasks := (hS t (List.mem_cons.mpr (Or.inl rfl))).1
    have hbl : t.status = .blocked := (hS t (List.mem_cons.mpr (Or.inl rfl))).2
    have hS' : ∀ x ∈ S, x ∈ m.tasks ∧ x.status = .blocked :=
      fun x hx => hS x (List.mem_cons.mpr (Or.inr hx))
    by_cases hsat : dependencies_satisfied mm t.id = true
    · rw [if_pos hsat] at hres
      dsimp only at hres
      have hrel' := pass_iter_rel m mm hnd hrel t htm hbl
        (some "Auto-transitioned: dependencies satisfied") now pOk
      obtain ⟨frel, fstab, fproc⟩ := ih _ _ res hS' hrel' hres
      refine ⟨frel, ?_, ?_⟩
      · intro tid h
        exact fstab tid (getTask_todo_after mm t.id _ now pOk tid h)
      · intro t2 ht2
        rcases List.mem_cons.mp ht2 with heq | ht2
        · -- the processed head now resolves to a todo record
          rw [heq]
          right
          -- the record mm holds for this id
          have hmfind : m.tasks.find? (fun u => decide (u.id = t.id)) = some t :=
            find?_self_of_nodup m.tasks hnd t htm
          rcases find?_forall₂ hrel t.id with ⟨g1, g2⟩ | ⟨u0, v0, g1, g2, gr⟩
          · rw [hmfind] at g2
            simp at g2
          · have hv0 : v0 = t := by
              rw [hmfind] at g2
              exact ((Option.some.injEq _ _).mp g2).symm ▸ rfl
            rw [hv0] at gr
            rcases gr.2.2 with hst | ⟨hst1, hst2⟩
            · -- the cached record is still blocked, so the update fires
              have hgu : getTask mm t.id = some u0 := g1
              have hval : is_valid_status_transition u0.status .todo = true := by
                rw [hst, hbl]
                decide
              have hfires := getTask_core_fires mm t.id .todo
                (some "Auto-transitioned: dependencies satisfied") now pOk u0 hgu hval
                (fun _ => hsat) t.id
              rw [if_pos rfl] at hfires
              have hupd : getTask ((update_task_status mm t.id .todo
                  (some "Auto-transitioned: dependencies satisfied") now pOk).2) t.id
                  = some (savedForm (applyStatusChange u0 .todo
                    (some "Auto-transitioned: dependencies satisfied") now) now) := by
                rw [update_ne_complete mm t.id .todo _ now pOk (by decide)]
                exact hfires
              apply fstab
              refine ⟨_, hupd, ?_⟩
              rw [savedForm_status, applyStatusChange_status]
            · -- the cached record is already todo, the update fails unchanged
              have hgu : getTask mm t.id = some u0 := g1
              have hval : is_valid_status_transition u0.status .todo = false := by
                rw [hst1]
                decide
              have hupd : (update_task_status mm t.id .todo
                  (some "Auto-transitioned: dependencies satisfied") now pOk).2 = mm := by
                rw [update_ne_complete mm t.id .todo _ now pOk (by decide)]
                rw [core_of_invalid mm t.id .todo _ now pOk u0 hgu hval]
              apply fstab
              rw [hupd]
              exact ⟨u0, hgu, hst1⟩
        · exact fproc t2 ht2
    · rw [if_neg hsat] at hres
      obtain ⟨frel, fstab, fproc⟩ := ih _ _ res hS' hrel hres
      refine ⟨frel, fstab, ?_⟩
      intro t2 ht2
      rcases List.mem_cons.mp ht2 with heq | ht2
      · rw [heq]
        left
        have hfalse : dependencies_satisfied mm t.id = false := by
          cases h2 : dependencies_satisfied mm t.id
          · rfl
          · exact absurd h2 hsat
        rw [← sat_invariant m mm hrel]
        exact hfalse
      · exact fproc t2 ht2

theorem pass2_fold (m1 : Manager) (now : Nat) (pOk : Bool) :
    ∀ (S2 : List Task),
      (∀ t ∈ S2, dependencies_satisfied m1 t.id = false
        ∨ ∃ u, getTask m1 t.id = some u ∧ u.status = .todo) →
      S2.foldl (fun acc2 task =>
        if dependencies_satisfied acc2.2 task.id then
          let r := update_task_status acc2.2 task.id .todo
            (some "Auto-transitioned: dependencies satisfied") now pOk
          (if r.1 then acc2.1 ++ [task.id] else acc2.1, r.2)
        else acc2) ([], m1) = ([], m1) := by
  intro S2
  induction S2 with
  | nil => intro h; rfl
  | cons t S2 ih =>
    intro h
    rw [List.foldl_cons]
    dsimp only
    have ihS2 := ih (fun x hx => h x (List.mem_cons.mpr (Or.inr hx)))
    rcases h t (List.mem_cons.mpr (Or.inl rfl)) with hf | ⟨u, hu, hus⟩
    · rw [if_neg (by simp [hf])]
      exact ihS2
    · by_cases hsat : dependencies_satisfied m1 t.id = true
      · rw [if_pos hsat]
        have hval : is_valid_status_transition u.status .todo = false := by
          rw [hus]
          decide
        have hupd : update_task_status m1 t.id .todo
            (some "Auto-transitioned: dependencies satisfied") now pOk = (false, m1) := by
          rw [update_ne_complete _ _ _ _ _ _ (by decide)]
          exact core_of_invalid m1 t.id .todo _ now pOk u hu hval
        rw [hupd]
        exact ihS2
      · rw [if_neg hsat]
        exact ihS2

/-- C6: with the store freshly loaded from a dict-backed cache (unique ids),
two consecutive `auto_transition_ready_tasks` calls with no intervening
mutation leave the second call transitioning nothing: it returns the empty
list and the untouched store, whatever the clock values and persist outcomes
of either call. -/
theorem claim_C6_auto_transition_idempotent :
    ∀ (m : Manager) (now1 now2 : Nat) (pOk1 pOk2 : Bool),
      (m.tasks.map (fun t => t.id)).Nodup →
      auto_transition_ready_tasks ((auto_transition_ready_tasks m now1 pOk1).2) now2 pOk2
        = ([], (auto_transition_ready_tasks m now1 pOk1).2) := by
  intro m now1 now2 pOk1 pOk2 hnd
  have hrel0 : List.Forall₂ passRel m.tasks m.tasks := by
    apply List.forall₂_same.mpr
    intro x hx
    exact ⟨rfl, rfl, Or.inl rfl⟩
  have hS : ∀ t ∈ m.tasks.filter (fun t => decide (t.status = .blocked)),
      t ∈ m.tasks ∧ t.status = .blocked := by
    intro t ht
    have h2 := List.mem_filter.mp ht
    exact ⟨h2.1, by simpa using h2.2⟩
  have hres : (auto_transition_ready_tasks m now1 pOk1)
      = (m.tasks.filter (fun t => decide (t.status = .blocked))).foldl
        (fun acc2 task =>
          if dependencies_satisfied acc2.2 task.id then
            let r := update_task_status acc2.2 task.id .todo
              (some "Auto-transitioned: dependencies satisfied") now1 pOk1
            (if r.1 then acc2.1 ++ [task.id] else acc2.1, r.2)
          else acc2) ([], m) := rfl
  obtain ⟨hrel1, hstab1, hproc1⟩ := pass1_fold m hnd now1 pOk1
    (m.tasks.filter (fun t => decide (t.status = .blocked))) [] m
    (auto_transition_ready_tasks m now1 pOk1) hS hrel0 hres
  have hS2 : ∀ t ∈ ((auto_transition_ready_tasks m now1 pOk1).2).tasks.filter
      (fun t => decide (t.status = .blocked)),
      dependencies_satisfied (auto_transition_ready_tasks m now1 pOk1).2 t.id = false
        ∨ ∃ u, getTask (auto_transition_ready_tasks m now1 pOk1).2 t.id = some u
            ∧ u.status = .todo := by
    intro t2 ht2
    have h2 := List.mem_filter.mp ht2
    have ht2bl : t2.status = .blocked := by simpa using h2.2
    obtain ⟨v, hvmem, hvrel⟩ := forall₂_mem_left hrel1 h2.1
    have hvst : v.status = .blocked := by
      rcases hvrel.2.2 with hst | ⟨hst1, hst2⟩
      · rw [← hst, ht2bl]
      · rw [ht2bl] at hst1
        exact absurd hst1 (by decide)
    have hvS : v ∈ m.tasks.filter (fun t => decide (t.status = .blocked)) :=
      List.mem_filter.mpr ⟨hvmem, by simp [hvst]⟩
    have hvid : v.id = t2.id := hvrel.1.symm
    rcases hproc1 v hvS with hf | hg
    · left
      rw [← hvid, sat_invariant m (auto_transition_ready_tasks m now1 pOk1).2 hrel1]
      exact hf
    · right
      rw [← hvid]
      exact hg
  exact pass2_fold (auto_transition_ready_tasks m now1 pOk1).2 now2 pOk2 _ hS2

/-- Witness for C6 on a concrete store with one satisfiable and one
unsatisfiable blocked task. -/
theorem claim_C6_auto_transition_witness :
    auto_transition_ready_tasks ((auto_transition_ready_tasks
        (Manager.ofTasks [mkTask "d" .complete [], mkTask "e" .blocked ["d"],
          mkTask "f" .blocked ["zz"]]) 7 true).2) 8 true
      = ([], (auto_transition_ready_tasks
        (Manager.ofTasks [mkTask "d" .complete [], mkTask "e" .blocked ["d"],
          mkTask "f" .blocked ["zz"]]) 7 true).2) :=
  claim_C6_auto_transition_idempotent
    (Manager.ofTasks [mkTask "d" .complete [], mkTask "e" .blocked ["d"],
      mkTask "f" .blocked ["zz"]]) 7 8 true true (by decide)

theorem length_filter_le_of_imp {α : Type} (l : List α) (p q : α → Bool)
    (h : ∀ a, p a = true → q a = true) :
    (l.filter p).length ≤ (l.filter q).length := by
  induction l with
  | nil => simp
  | cons a l ih =>
    cases hp : p a with
    | false =>
      cases hq : q a with
      | false =>
        simp only [List.filter_cons, hp, hq]
        exact ih
      | true =>
        simp only [List.filter_cons, hp, hq, if_true, List.length_cons]
        exact Nat.le_succ_of_le ih
    | true =>
      have hqa := h a hp
      simp only [List.filter_cons, hp, hqa, if_true, List.length_cons]
      omega

theorem length_filter_lt_of_imp {α : Type} (l : List α) (p q : α → Bool)
    (h : ∀ a, p a = true → q a = true) (x : α) (hx : x ∈ l)
    (hpx : p x = false) (hqx : q x = true) :
    (l.filter p).length < (l.filter q).length := by
  induction l with
  | nil => cases hx
  | cons a l ih =>
    rcases List.mem_cons.mp hx with heq | hx2
    · rw [← heq]
      have hle := length_filter_le_of_imp l p q h
      rw [List.filter_cons, List.filter_cons, if_neg (by simp [hpx]), if_pos hqx]
      simp only [List.length_cons]
      omega
    · have hlt := ih hx2
      cases hp : p a with
      | false =>
        cases hq : q a with
        | false =>
          rw [List.filter_cons, List.filter_cons, if_neg (by simp [hp]),
            if_neg (by simp [hq])]
          exact hlt
        | true =>
          rw [List.filter_cons, List.filter_cons, if_neg (by simp [hp]), if_pos hq]
          simp only [List.length_cons]
          omega
      | true =>
        have hqa := h a hp
        rw [List.filter_cons, List.filter_cons, if_pos hp, if_pos hqa]
        simp only [List.length_cons]
        omega

theorem unvisited_le_of_subset (keys vis vis2 : List String) (hsub : vis ⊆ vis2) :
    (keys.filter (fun k => decide (¬ k ∈ vis2))).length
      ≤ (keys.filter (fun k => decide (¬ k ∈ vis))).length := by
  apply length_filter_le_of_imp
  intro a ha
  simp only [decide_eq_true_eq] at ha ⊢
  exact fun hm => ha (hsub hm)

theorem unvisited_lt_extend (keys vis : List String) (tid : String)
    (hk : tid ∈ keys) (hv : ¬ tid ∈ vis) :
    (keys.filter (fun k => decide (¬ k ∈ tid :: vis))).length
      < (keys.filter (fun k => decide (¬ k ∈ vis))).length := by
  refine length_filter_lt_of_imp keys _ _ ?_ tid hk ?_ ?_
  · intro a ha
    simp only [decide_eq_true_eq] at ha ⊢
    exact fun hm => ha (List.mem_cons.mpr (Or.inr hm))
  · simp
  · simpa using hv

theorem dfsDeps_strong (tasks : List Task) (fuel : Nat)
    (ih : ∀ (tid : String) (path : List String) (st : DfsState),
      tid ∈ taskKeys tasks →
      ((taskKeys tasks).filter (fun k => decide (¬ k ∈ st.visited))).length < fuel →
      ∃ st2, dfsVisit tasks fuel tid path st = some st2
        ∧ st.visited ⊆ st2.visited) :
    ∀ (deps path : List String) (st : DfsState),
      ((taskKeys tasks).filter (fun k => decide (¬ k ∈ st.visited))).length < fuel →
      ∃ st2, dfsDeps (taskKeys tasks) (dfsVisit tasks fuel) deps path st = some st2
        ∧ st.visited ⊆ st2.visited := by
  intro deps
  induction deps with
  | nil =>
    intro path st hb
    exact ⟨st, rfl, fun x hx => hx⟩
  | cons dep rest ihd =>
    intro path st hb
    by_cases hdk : dep ∈ taskKeys tasks
    · obtain ⟨s1, hs1, hsub1⟩ := ih dep (path ++ [dep]) st hdk hb
      have hb1 : ((taskKeys tasks).filter
          (fun k => decide (¬ k ∈ s1.visited))).length < fuel :=
        lt_of_le_of_lt (unvisited_le_of_subset _ _ _ hsub1) hb
      obtain ⟨s2, hs2, hsub2⟩ := ihd path s1 hb1
      refine ⟨s2, ?_, fun x hx => hsub2 (hsub1 hx)⟩
      rw [dfsDeps, if_pos hdk, hs1]
      exact hs2
    · obtain ⟨s2, hs2, hsub2⟩ := ihd path st hb
      refine ⟨s2, ?_, hsub2⟩
      rw [dfsDeps, if_neg hdk]
      exact hs2

theorem dfsVisit_strong (tasks : List Task) :
    ∀ (fuel : Nat) (tid : String) (path : List String) (st : DfsState),
      tid ∈ taskKeys tasks →
      ((taskKeys tasks).filter (fun k => decide (¬ k ∈ st.visited))).length < fuel →
      ∃ st2, dfsVisit tasks fuel tid path st = some st2
        ∧ st.visited ⊆ st2.visited := by
  intro fuel
  induction fuel with
  | zero =>
    intro tid path st hk hb
    omega
  | succ fuel ih =>
    intro tid path st hk hb
    by_cases h1 : tid ∈ st.recStack
    · refine ⟨{ st with cycles := st.cycles ++ [cycleFrom path tid] }, ?_,
        fun x hx => hx⟩
      rw [dfsVisit, if_pos h1]
    · by_cases h2 : tid ∈ st.visited
      · refine ⟨st, ?_, fun x hx => hx⟩
        rw [dfsVisit, if_neg h1, if_pos h2]
      · have hb1 : ((taskKeys tasks).filter
            (fun k => decide (¬ k ∈ tid :: st.visited))).length < fuel :=
          lt_of_lt_of_le (unvisited_lt_extend _ _ _ hk h2) (Nat.lt_succ_iff.mp hb)
        obtain ⟨s2, hs2, hsub2⟩ := dfsDeps_strong tasks fuel ih (depsOf tasks tid)
          path { st with visited := tid :: st.visited, recStack := tid :: st.recStack }
          hb1
        refine ⟨{ s2 with recStack := s2.recStack.erase tid }, ?_, ?_⟩
        · rw [dfsVisit, if_neg h1, if_neg h2]
          dsimp only
          rw [hs2]
        · intro x hx
          exact hsub2 (List.mem_cons.mpr (Or.inr hx))

theorem find_circular_go_strong (tasks : List Task) (fuel : Nat) :
    ∀ (ids : List String) (st : DfsState),
      (∀ i ∈ ids, i ∈ taskKeys tasks) →
      ((taskKeys tasks).filter (fun k => decide (¬ k ∈ st.visited))).length < fuel →
      (find_circular_go tasks fuel ids st).isSome = true := by
  intro ids
  induction ids with
  | nil =>
    intro st h hb
    rfl
  | cons tid rest ihr =>
    intro st h hb
    by_cases h1 : tid ∈ st.visited
    · rw [find_circular_go, if_pos h1]
      exact ihr st (fun i hi => h i (List.mem_cons.mpr (Or.inr hi))) hb
    · obtain ⟨st2, hst2, hsub⟩ := dfsVisit_strong tasks fuel tid [tid] st
        (h tid (List.mem_cons.mpr (Or.inl rfl))) hb
      rw [find_circular_go, if_neg h1, hst2]
      exact ihr st2 (fun i hi => h i (List.mem_cons.mpr (Or.inr hi)))
        (lt_of_le_of_lt (unvisited_le_of_subset _ _ _ hsub) hb)

theorem find_circular_terminates (tasks : List Task) :
    (find_circular_dependencies tasks).isSome = true := by
  have hfe : (taskKeys tasks).filter
      (fun k => decide (¬ k ∈ ([] : List String))) = taskKeys tasks := by
    simp
  have h0 : ((taskKeys tasks).filter
      (fun k => decide (¬ k ∈ ([] : List String)))).length < tasks.length + 1 := by
    rw [hfe, taskKeys, List.length_map]
    omega
  have hgo := find_circular_go_strong tasks (tasks.length + 1) (taskKeys tasks)
    ⟨[], [], []⟩ (fun i hi => hi) h0
  obtain ⟨v, hv⟩ := Option.isSome_iff_exists.mp hgo
  unfold find_circular_dependencies
  rw [hv]
  rfl

theorem chainDeps_strong (m : Manager) (r : String) (fuel : Nat)
    (ih : ∀ (tid : String) (st : List String × List String),
      tid ∈ chainUniverse m r →
      ((chainUniverse m r).filter (fun k => decide (¬ k ∈ st.1))).length < fuel →
      ∃ st2, chainVisit m fuel tid st = some st2 ∧ st.1 ⊆ st2.1) :
    ∀ (deps : List String), (∀ d ∈ deps, d ∈ chainUniverse m r) →
      ∀ (st : List String × List String),
      ((chainUniverse m r).filter (fun k => decide (¬ k ∈ st.1))).length < fuel →
      ∃ st2, chainDeps (chainVisit m fuel) deps st = some st2 ∧ st.1 ⊆ st2.1 := by
  intro deps
  induction deps with
  | nil =>
    intro h st hb
    exact ⟨st, rfl, fun x hx => hx⟩
  | cons dep rest ihd =>
    intro h st hb
    obtain ⟨s1, hs1, hsub1⟩ := ih dep st (h dep (List.mem_cons.mpr (Or.inl rfl))) hb
    have hb1 : ((chainUniverse m r).filter
        (fun k => decide (¬ k ∈ s1.1))).length < fuel :=
      lt_of_le_of_lt (unvisited_le_of_subset _ _ _ hsub1) hb
    have hrest : ∀ d ∈ rest, d ∈ chainUniverse m r :=
      fun d hd => h d (List.mem_cons.mpr (Or.inr hd))
    by_cases hd2 : dep ∈ s1.2
    · obtain ⟨s2, hs2, hsub2⟩ := ihd hrest s1 hb1
      refine ⟨s2, ?_, fun x hx => hsub2 (hsub1 hx)⟩
      rw [chainDeps, hs1]
      show chainDeps (chainVisit m fuel) rest
        (if dep ∈ s1.2 then s1 else (s1.1, s1.2 ++ [dep])) = some s2
      rw [if_pos hd2]
      exact hs2
    · obtain ⟨s2, hs2, hsub2⟩ := ihd hrest (s1.1, s1.2 ++ [dep]) hb1
      refine ⟨s2, ?_, fun x hx => hsub2 (hsub1 hx)⟩
      rw [chainDeps, hs1]
      show chainDeps (chainVisit m fuel) rest
        (if dep ∈ s1.2 then s1 else (s1.1, s1.2 ++ [dep])) = some s2
      rw [if_neg hd2]
      exact hs2

theorem chainVisit_strong (m : Manager) (r : String) :
    ∀ (fuel : Nat) (tid : String) (st : List String × List String),
      tid ∈ chainUniverse m r →
      ((chainUniverse m r).filter (fun k => decide (¬ k ∈ st.1))).length < fuel →
      ∃ st2, chainVisit m fuel tid st = some st2 ∧ st.1 ⊆ st2.1 := by
  intro fuel
  induction fuel with
  | zero =>
    intro tid st hk hb
    omega
  | succ fuel ih =>
    intro tid st hk hb
    by_cases h1 : tid ∈ st.1
    · refine ⟨st, ?_, fun x hx => hx⟩
      rw [chainVisit, if_pos h1]
    · have hb1 : ((chainUniverse m r).filter
          (fun k => decide (¬ k ∈ tid :: st.1))).length < fuel :=
        lt_of_lt_of_le (unvisited_lt_extend _ _ _ hk h1) (Nat.lt_succ_iff.mp hb)
      cases hg : getTask m tid with
      | none =>
        refine ⟨(tid :: st.1, st.2), ?_, fun x hx => List.mem_cons.mpr (Or.inr hx)⟩
        rw [chainVisit, if_neg h1]
        dsimp only
        rw [hg]
      | some task =>
        have hdU : ∀ d ∈ task.dependencies, d ∈ chainUniverse m r := by
          intro d hd
          exact List.mem_cons.mpr (Or.inr
            (List.mem_flatMap.mpr ⟨task, (getTask_mem hg).1, hd⟩))
        obtain ⟨s2, hs2, hsub2⟩ := chainDeps_strong m r fuel ih task.dependencies
          hdU (tid :: st.1, st.2) hb1
        refine ⟨s2, ?_, fun x hx => hsub2 (List.mem_cons.mpr (Or.inr hx))⟩
        rw [chainVisit, if_neg h1]
        dsimp only
        rw [hg]
        exact hs2

theorem chain_terminates (m : Manager) (task_id : String) :
    (get_dependency_chain m task_id).isSome = true := by
  have hfe : (chainUniverse m task_id).filter
      (fun k => decide (¬ k ∈ ([] : List String))) = chainUniverse m task_id := by
    simp
  have h0 : ((chainUniverse m task_id).filter
      (fun k => decide (¬ k ∈ ([] : List String)))).length
      < (chainUniverse m task_id).length + 1 := by
    rw [hfe]
    omega
  obtain ⟨st2, hst2, _⟩ := chainVisit_strong m task_id
    ((chainUniverse m task_id).length + 1) task_id ([], [])
    (List.mem_cons.mpr (Or.inl rfl)) h0
  unfold get_dependency_chain
  rw [hst2]
  rfl

/-- C8: system-wide cycle detection always terminates (returns a result under
its natural recursion budget) on every task list, and the dependency-chain
walk always terminates on every store and root id; on the concrete cyclic
graph a -> b -> c -> a, cycle detection reports exactly one cycle, whose
members are a, b and c, and the dependency chain of a also terminates with a
result. -/
theorem claim_C8_cycle_safety :
    (∀ tasks : List Task, (find_circular_dependencies tasks).isSome = true)
    ∧ (∀ (m : Manager) (task_id : String),
        (get_dependency_chain m task_id).isSome = true)
    ∧ find_circular_dependencies cycleDemoTasks = some [["a", "b", "c", "a"]]
    ∧ get_dependency_chain cycleDemoManager "a" = some ["a", "c", "b"] :=
  ⟨find_circular_terminates, chain_terminates, by decide, by decide⟩

end TaskSys
